import Mathlib

/-!
ShineCore launcher: `DownloadUtil` (src/launcher/download-util.js)

A shallow embedding of the download engine: the single-item pipeline
`downloadFileWithRetry`, the JSON variant `fetchJson`, and the worker pool
`downloadParallel`.

Asynchronous code is embedded as follows.

* The file system and the network are the environment.  For one call of
  `downloadFileWithRetry` the environment is a `World`: what `fs.existsSync`
  answers, what each awaited `calculateSha1` and `downloadFile` settles with.
  The call is a function from the world to its settlement (return value or
  thrown error) together with the trace of the calls it made, in order.
* `downloadParallel` runs on the single JavaScript thread: a worker runs
  without interruption from one `await` to the next.  The pool is a state
  machine whose steps are "the pipeline awaited by worker `i` settles"; the
  order in which in-flight pipelines settle is the schedule, and every
  schedule is a possible run.

Inputs are typed: a task has string `url` and `path`, `concurrency` is an
integer, the injected logger returns.  The `onProgress` callback may throw.
-/

namespace DownloadUtil

/-! ## Values -/

/-- A JavaScript `Error`, identified by its message. -/
structure JsError where
  message : String
deriving DecidableEq, Repr

/-- What an `async` function body returns: a value, or `undefined` when the
body falls off its end. -/
inductive JsResult (α : Type) where
  | value (a : α)
  | undefined
deriving DecidableEq, Repr

/-- The `DownloadUtil` instance: the two fields the constructor sets, and
`path.basename` of the host's `path` module (used only to build log lines),
which is taken as a parameter. -/
structure Util where
  maxRetries : Nat
  retryDelay : Nat
  basename : String → String

/-- The constructor: `this.maxRetries = 3; this.retryDelay = 1000`. -/
def Util.new (basename : String → String) : Util :=
  { maxRetries := 3, retryDelay := 1000, basename := basename }

/-- JavaScript truthiness of an optional string argument: `null`, `undefined`
and the empty string are falsy. -/
def truthy : Option String → Bool
  | none => false
  | some s => s != ""

/-- The calls a pipeline makes that are visible outside it. -/
inductive Effect where
  | calculateSha1 (filePath : String)
  | downloadFile (url filePath : String)
  /-- One call of `this._fetchJson(url)`. -/
  | fetchJsonOnce (url : String)
  | warn (msg : String)
  | sleep (ms : Nat)
deriving DecidableEq, Repr

/-- A settled asynchronous call: how it settled, and what it did. -/
structure Run (α : Type) where
  result : Except JsError α
  trace : List Effect

/-- Everything one call of `downloadFileWithRetry` observes of the file system
and the network.  `download k` and `sha1Downloaded k` are the settlements of
`downloadFile` and of the following `calculateSha1` in attempt `k`. -/
structure World where
  fileExists : Bool
  sha1Existing : Except JsError String
  download : Nat → Except JsError Unit
  sha1Downloaded : Nat → Except JsError String

/-! ## `downloadFileWithRetry` -/

/-- The `catch` block of the retry loop: warn, rethrow on the last attempt,
otherwise sleep `retryDelay * attempt` and go on with `next`, the remaining
iterations. -/
def retryCatch (u : Util) (url : String) (attempt : Nat) (error : JsError)
    (done : List Effect) (next : Run (JsResult Bool)) : Run (JsResult Bool) :=
  let warned := done ++
    [Effect.warn ("Download failed (" ++ toString attempt ++ "/" ++ toString u.maxRetries ++ "): " ++ url)]
  if attempt = u.maxRetries then
    { result := .error error, trace := warned }
  else
    { result := next.result,
      trace := warned ++ [Effect.sleep (u.retryDelay * attempt)] ++ next.trace }

/-- The loop `for (let attempt = 1; attempt <= this.maxRetries; attempt++)`,
by the number of iterations left: with `r + 1` iterations left the loop
variable is `attempt = maxRetries - r`.  With none left the loop ends and the
function returns `undefined`. -/
def retryLoop (u : Util) (w : World) (url filePath : String) (expectedSha1 : Option String) :
    Nat → Run (JsResult Bool)
  | 0 => { result := .ok .undefined, trace := [] }
  | r + 1 =>
    let attempt := u.maxRetries - r
    let next := retryLoop u w url filePath expectedSha1 r
    match w.download attempt with
    | .error e => retryCatch u url attempt e [Effect.downloadFile url filePath] next
    | .ok _ =>
      if truthy expectedSha1 then
        match w.sha1Downloaded attempt with
        | .error e =>
          retryCatch u url attempt e
            [Effect.downloadFile url filePath, Effect.calculateSha1 filePath] next
        | .ok hash =>
          if some hash = expectedSha1 then
            { result := .ok (.value true),
              trace := [Effect.downloadFile url filePath, Effect.calculateSha1 filePath] }
          else
            { result := .ok (.value true),
              trace := [Effect.downloadFile url filePath, Effect.calculateSha1 filePath,
                        Effect.warn ("SHA1 mismatch: " ++ u.basename filePath)] }
      else
        { result := .ok (.value true), trace := [Effect.downloadFile url filePath] }

/-- The whole of `downloadFileWithRetry(url, filePath, expectedSha1)`: the
pre-check on an existing file, then the retry loop. -/
def downloadFileWithRetry (u : Util) (w : World) (url filePath : String)
    (expectedSha1 : Option String) : Run (JsResult Bool) :=
  let loop := retryLoop u w url filePath expectedSha1 u.maxRetries
  if w.fileExists && truthy expectedSha1 then
    match w.sha1Existing with
    | .error e => { result := .error e, trace := [Effect.calculateSha1 filePath] }
    | .ok hash =>
      if some hash = expectedSha1 then
        { result := .ok (.value true), trace := [Effect.calculateSha1 filePath] }
      else
        { result := loop.result, trace := Effect.calculateSha1 filePath :: loop.trace }
  else loop

/-! ## `fetchJson` -/

/-- The retry loop of `fetchJson(url)`, by the number of iterations left;
`fetch k` is the settlement of `this._fetchJson(url)` in attempt `k`. -/
def fetchJsonLoop {J : Type} (u : Util) (fetch : Nat → Except JsError J) (url : String) :
    Nat → Run (JsResult J)
  | 0 => { result := .ok .undefined, trace := [] }
  | r + 1 =>
    let attempt := u.maxRetries - r
    let next := fetchJsonLoop u fetch url r
    match fetch attempt with
    | .ok data => { result := .ok (.value data), trace := [Effect.fetchJsonOnce url] }
    | .error e =>
      let warned := [Effect.fetchJsonOnce url,
        Effect.warn ("JSON fetch failed (" ++ toString attempt ++ "/" ++ toString u.maxRetries ++ "): " ++ url)]
      if attempt = u.maxRetries then
        { result := .error e, trace := warned }
      else
        { result := next.result,
          trace := warned ++ [Effect.sleep (u.retryDelay * attempt)] ++ next.trace }

/-- The function `fetchJson(url)`. -/
def fetchJson {J : Type} (u : Util) (fetch : Nat → Except JsError J) (url : String) :
    Run (JsResult J) :=
  fetchJsonLoop u fetch url u.maxRetries

/-! ## `downloadParallel` -/

/-- A download task: `{ url, path, sha1, name }`, the last two optional. -/
structure DownloadTask where
  url : String
  path : String
  sha1 : Option String
  name : Option String
deriving DecidableEq, Repr

/-- An element of the `files` array: a task object, or a falsy value (`null`,
`undefined`, ...), which makes the worker that shifts it leave its loop. -/
inductive JsFile where
  | obj (file : DownloadTask)
  | falsy
deriving DecidableEq, Repr

/-- The `onProgress(completed, total, file)` callback: it returns, or throws. -/
abbrev ProgressCallback := Nat → Nat → DownloadTask → Except JsError Unit

/-- A call of `downloadFileWithRetry` made by a worker.  `pos` is the position
in `files` of the element the worker shifted; the code does not store it, it is
recorded to state properties about positions. -/
structure PipelineCall where
  pos : Nat
  file : DownloadTask
deriving DecidableEq, Repr

/-- A call of `onProgress`, with the position of the file it reports. -/
structure ProgressCall where
  completed : Nat
  total : Nat
  file : DownloadTask
  pos : Nat
deriving DecidableEq, Repr

/-- A worker promise: suspended at `await this.downloadFileWithRetry(...)` for
the file it shifted, or fulfilled (its loop has ended). -/
inductive Worker where
  | awaiting (pos : Nat) (file : DownloadTask)
  | finished
deriving DecidableEq, Repr

/-- The variables of one `downloadParallel` call, and the calls it has made. -/
structure Pool where
  completed : Nat
  total : Nat
  failed : List DownloadTask
  queue : List JsFile
  workers : List Worker
  calls : List PipelineCall
  progress : List ProgressCall
  errors : List (String × JsError)
deriving DecidableEq, Repr

/-- What `downloadParallel` resolves with: `{ completed, total, failed }`. -/
structure BatchResult where
  completed : Nat
  total : Nat
  failed : List DownloadTask
deriving DecidableEq, Repr

/-- The environment of a batch: the instance, and for each position of `files`
the world that the pipeline started for that position runs in. -/
structure Runtime where
  util : Util
  world : Nat → World

/-- The settlement of the pipeline a worker awaits for the file at `pos`:
`this.downloadFileWithRetry(file.url, file.path, file.sha1)`. -/
def pipeline (rt : Runtime) (pos : Nat) (file : DownloadTask) : Except JsError (JsResult Bool) :=
  (downloadFileWithRetry rt.util (rt.world pos) file.url file.path file.sha1).result

/-- The state after `let completed = 0; const total = files.length;
const failed = []; const queue = [...files]; const workers = []`. -/
def Pool.init (files : List JsFile) : Pool :=
  { completed := 0, total := files.length, failed := [], queue := files, workers := [],
    calls := [], progress := [], errors := [] }

/-- The worker from the head of its `while` loop to its next suspension:
leave the loop on an empty queue, shift the head, leave on a falsy head,
otherwise call the pipeline and suspend on it.  The head of the queue is the
element of `files` at position `total - queue.length`. -/
def workerNext (s : Pool) : Pool × Worker :=
  match s.queue with
  | [] => (s, .finished)
  | .falsy :: rest => ({ s with queue := rest }, .finished)
  | .obj file :: rest =>
    let pos := s.total - s.queue.length
    ({ s with queue := rest, calls := s.calls ++ [{ pos := pos, file := file }] },
     .awaiting pos file)

/-- One iteration of `for (let i = 0; i < concurrency; i++) workers.push(worker())`:
the new worker runs to its first suspension and its promise is pushed. -/
def spawn (s : Pool) : Pool :=
  let (s1, w) := workerNext s
  { s1 with workers := s1.workers ++ [w] }

/-- The whole `for` loop, `n` iterations. -/
def spawnAll : Nat → Pool → Pool
  | 0, s => s
  | n + 1, s => spawnAll n (spawn s)

/-- The line `Failed: ...` given to `logger.error`: `file.name` when truthy,
else the base name of `file.path`. -/
def failedLine (u : Util) (file : DownloadTask) : String :=
  "Failed: " ++ (if truthy file.name then file.name.getD "" else u.basename file.path)

/-- The `catch` block of the worker: log and `failed.push(file)`. -/
def workerCatch (u : Util) (file : DownloadTask) (error : JsError) (s : Pool) : Pool :=
  { s with errors := s.errors ++ [(failedLine u file, error)], failed := s.failed ++ [file] }

/-- The body of the worker's `try`/`catch` after the awaited pipeline has
settled with `r`. -/
def afterAwait (u : Util) (onProgress : Option ProgressCallback) (pos : Nat) (file : DownloadTask)
    (r : Except JsError (JsResult Bool)) (s : Pool) : Pool :=
  match r with
  | .error e => workerCatch u file e s
  | .ok _ =>
    let s1 := { s with completed := s.completed + 1 }
    match onProgress with
    | none => s1
    | some f =>
      let s2 := { s1 with progress := s1.progress ++
        [{ completed := s1.completed, total := s1.total, file := file, pos := pos }] }
      match f s1.completed s1.total file with
      | .ok _ => s2
      | .error e => workerCatch u file e s2

/-- The pipeline awaited by worker `i` settles: the worker resumes, records
the outcome and runs to its next suspension or to its end.  Nothing happens if
worker `i` is not suspended. -/
def resume (rt : Runtime) (onProgress : Option ProgressCallback) (i : Nat) (s : Pool) : Pool :=
  match s.workers[i]? with
  | some (.awaiting pos file) =>
    let s1 := afterAwait rt.util onProgress pos file (pipeline rt pos file) s
    let (s2, w) := workerNext s1
    { s2 with workers := s2.workers.set i w }
  | _ => s

/-- The indices of the suspended workers. -/
def awaitingIdx (ws : List Worker) : List Nat :=
  (List.range ws.length).filter (fun i => ws[i]? != some Worker.finished)

/-- A scheduler choice `j` picks one of the suspended workers, the one of rank
`j` modulo their number, and its pipeline settles.  Every order in which the
in-flight pipelines can settle is a list of such choices. -/
def settle (rt : Runtime) (onProgress : Option ProgressCallback) (j : Nat) (s : Pool) : Pool :=
  match awaitingIdx s.workers with
  | [] => s
  | i :: rest => resume rt onProgress ((i :: rest).getD (j % (i :: rest).length) i) s

/-- The pool after the `for` loop and after the settlements of `sched`. -/
def poolAfter (rt : Runtime) (files : List JsFile) (concurrency : Int)
    (onProgress : Option ProgressCallback) (sched : List Nat) : Pool :=
  sched.foldl (fun s j => settle rt onProgress j s) (spawnAll concurrency.toNat (Pool.init files))

/-- All worker promises are fulfilled: `await Promise.all(workers)` goes on. -/
def Pool.allFinished (s : Pool) : Bool :=
  s.workers.all (fun w => w == Worker.finished)

/-- The call `downloadParallel(files, concurrency, onProgress)` under the
schedule `sched`: the result it resolves with once every worker has finished,
`none` while some worker is still suspended. -/
def downloadParallel (rt : Runtime) (files : List JsFile) (concurrency : Int)
    (onProgress : Option ProgressCallback) (sched : List Nat) : Option BatchResult :=
  let s := poolAfter rt files concurrency onProgress sched
  if s.allFinished then
    some { completed := s.completed, total := s.total, failed := s.failed }
  else none

/-! ## Vocabulary of the statements -/

/-- How the pre-check of `downloadFileWithRetry` (the `if` before the loop)
ends: it returns `true` at once (the skip path), it goes on to the retry loop,
or the digest of the existing file cannot be computed and the call rejects. -/
inductive PreCheck where
  | skip
  | proceed
  | raise (e : JsError)
deriving DecidableEq, Repr

/-- The pre-check of `downloadFileWithRetry` in world `w`. -/
def preCheck (w : World) (expectedSha1 : Option String) : PreCheck :=
  if w.fileExists && truthy expectedSha1 then
    match w.sha1Existing with
    | .error e => .raise e
    | .ok hash => if some hash = expectedSha1 then .skip else .proceed
  else .proceed

/-- The settlement of the `try` block of attempt `k`: `downloadFile`, then the
digest when `expectedSha1` is truthy. -/
def attemptOutcome (w : World) (expectedSha1 : Option String) (k : Nat) : Except JsError Unit :=
  match w.download k with
  | .error e => .error e
  | .ok _ =>
    if truthy expectedSha1 then
      match w.sha1Downloaded k with
      | .error e => .error e
      | .ok _ => .ok ()
    else .ok ()

/-- What the timeline of a trace keeps: an attempt (a call of `downloadFile`
or of `_fetchJson`), or a sleep of `ms` milliseconds. -/
inductive Tick where
  | attempt
  | sleep (ms : Nat)
deriving DecidableEq, Repr

/-- The attempts and the sleeps of a trace, in order. -/
def timeline : List Effect → List Tick
  | [] => []
  | .downloadFile _ _ :: es => Tick.attempt :: timeline es
  | .fetchJsonOnce _ :: es => Tick.attempt :: timeline es
  | .sleep ms :: es => Tick.sleep ms :: timeline es
  | .calculateSha1 _ :: es => timeline es
  | .warn _ :: es => timeline es

/-- The timeline of `j` attempts numbered from `a`, with the sleep
`retryDelay * k` between attempt `k` and attempt `k + 1`. -/
def backoff (retryDelay a : Nat) : Nat → List Tick
  | 0 => []
  | 1 => [Tick.attempt]
  | j + 2 => Tick.attempt :: Tick.sleep (retryDelay * a) :: backoff retryDelay (a + 1) (j + 1)

/-- The sleeps of a timeline, in order. -/
def sleeps : List Tick → List Nat
  | [] => []
  | Tick.attempt :: ts => sleeps ts
  | Tick.sleep ms :: ts => ms :: sleeps ts

/-- The tasks `ts` with their positions, counted from `k`. -/
def positioned (k : Nat) (ts : List DownloadTask) : List PipelineCall :=
  (ts.enumFrom k).map (fun p => { pos := p.1, file := p.2 })

/-- The pipeline calls the suspended workers are waiting for. -/
def inflight (ws : List Worker) : List PipelineCall :=
  ws.filterMap (fun w =>
    match w with
    | .awaiting pos file => some { pos := pos, file := file }
    | .finished => none)

/-- The pipeline of call `c` settles with success. -/
def resolved (rt : Runtime) (c : PipelineCall) : Bool :=
  match pipeline rt c.pos c.file with
  | .ok _ => true
  | .error _ => false

/-- The `onProgress` call `e` threw. -/
def threw (onProgress : Option ProgressCallback) (e : ProgressCall) : Bool :=
  match onProgress with
  | none => false
  | some f =>
    match f e.completed e.total e.file with
    | .ok _ => false
    | .error _ => true

/-- The pipeline call an `onProgress` call reports. -/
def ProgressCall.call (e : ProgressCall) : PipelineCall :=
  { pos := e.pos, file := e.file }

/-- The bookkeeping of the pool against the pipelines that have settled so far
(`settled`, in the order they settled). -/
structure Accounts (rt : Runtime) (onProgress : Option ProgressCallback) (s : Pool)
    (settled : List PipelineCall) : Prop where
  completed_eq : s.completed = (settled.filter (resolved rt)).length
  progress_some : onProgress.isSome → s.progress.map ProgressCall.call = settled.filter (resolved rt)
  progress_none : onProgress = none → s.progress = []
  failed_perm : List.Perm s.failed
    ((settled.filter (fun c => !resolved rt c)).map PipelineCall.file ++
      (s.progress.filter (threw onProgress)).map ProgressCall.file)
  numbering : s.progress.map (fun e => (e.completed, e.total)) =
    (List.range' 1 s.progress.length).map (fun k => (k, s.total))
  errors_eq : s.errors.map Prod.fst = s.failed.map (failedLine rt.util)

/-- The invariant of a batch over the task objects `ts`: `rest` are the tasks
still queued, `settled` the pipeline calls that have settled. -/
structure Inv (rt : Runtime) (onProgress : Option ProgressCallback) (ts : List DownloadTask)
    (s : Pool) (rest settled : List PipelineCall) : Prop where
  total_eq : s.total = ts.length
  queue_eq : s.queue = rest.map (fun c => JsFile.obj c.file)
  calls_eq : s.calls ++ rest = positioned 0 ts
  calls_perm : List.Perm s.calls (settled ++ inflight s.workers)
  drained : Worker.finished ∈ s.workers → s.queue = []
  accounts : Accounts rt onProgress s settled

/-- The number of tasks not yet settled: queued or in flight. -/
def Pool.pending (s : Pool) : Nat :=
  s.queue.length + (inflight s.workers).length

/-! ## Concrete inputs -/

/-- Two tasks of a batch. -/
def taskA : DownloadTask :=
  { url := "http://host/a.jar", path := "/game/a.jar", sha1 := none, name := some "a.jar" }

def taskB : DownloadTask :=
  { url := "http://host/b.jar", path := "/game/b.jar", sha1 := some "0a4d", name := none }

/-- A world in which nothing is on disk and every download succeeds. -/
def worldOk : World :=
  { fileExists := false, sha1Existing := .ok "", download := fun _ => .ok (),
    sha1Downloaded := fun _ => .ok "0a4d" }

/-- A world in which nothing is on disk and every download fails with HTTP 500. -/
def world500 : World :=
  { fileExists := false, sha1Existing := .ok "",
    download := fun k => .error { message := "HTTP 500, attempt " ++ toString k },
    sha1Downloaded := fun _ => .ok "0a4d" }

/-- A world in which the destination exists but cannot be read (a directory,
say), and every download fails with HTTP 500. -/
def worldUnreadable : World :=
  { fileExists := true, sha1Existing := .error { message := "EISDIR" },
    download := fun k => .error { message := "HTTP 500, attempt " ++ toString k },
    sha1Downloaded := fun _ => .ok "0a4d" }

/-- A world in which nothing is on disk, the first download fails and the
second succeeds. -/
def worldSecond : World :=
  { fileExists := false, sha1Existing := .ok "",
    download := fun k => if k = 2 then .ok () else .error { message := "ETIMEDOUT" },
    sha1Downloaded := fun _ => .ok "0a4d" }

/-- A JSON endpoint that fails every time, with a different error each time. -/
def fetch500 : Nat → Except JsError Nat :=
  fun k => .error { message := "HTTP 500, attempt " ++ toString k }

/-- The instance the constructor builds, with the identity for `path.basename`. -/
def util0 : Util := Util.new id

/-- Every pipeline succeeds. -/
def rtOk : Runtime := { util := util0, world := fun _ => worldOk }

/-- Every pipeline fails. -/
def rt500 : Runtime := { util := util0, world := fun _ => world500 }

/-- The pipeline of position 1 fails, the others succeed. -/
def rtMixed : Runtime := { util := util0, world := fun p => if p = 1 then world500 else worldOk }

/-- A progress callback that throws. -/
def throwingCallback : ProgressCallback := fun _ _ _ => .error { message := "callback failed" }

/-- A progress callback that returns. -/
def quietCallback : ProgressCallback := fun _ _ _ => .ok ()

/-- A world in which the destination is on disk with the expected digest, and
the network is down. -/
def worldInstalled : World :=
  { fileExists := true, sha1Existing := .ok "0a4d",
    download := fun _ => .error { message := "ENETUNREACH" },
    sha1Downloaded := fun _ => .ok "0a4d" }

/-- A world in which nothing is on disk, the first download fails, the second
succeeds, and the digest of what was downloaded is not the expected one. -/
def worldMismatch : World :=
  { fileExists := false, sha1Existing := .ok "",
    download := fun k => if k = 2 then .ok () else .error { message := "ETIMEDOUT" },
    sha1Downloaded := fun _ => .ok "ffff" }

/-! ## The retry executor of the specification -/

/-- The generic `withRetry` of the specification (section 4.3), written from
its words and not from the code: `operation` is invoked up to `maxAttempts`
times; a success ends the loop with the operation's result; between attempt
`k` and attempt `k + 1` it waits `baseDelay * k` milliseconds; the failure of
the final attempt is propagated as it is.  `withRetryFrom operation baseDelay k
n` runs the attempts `k, k + 1, ...`, `n` of them at most; it gives the
outcome (`none` when no attempt is made) and the timeline. -/
def withRetryFrom {α : Type} (operation : Nat → Except JsError α) (baseDelay : Nat) :
    Nat → Nat → Option (Except JsError α) × List Tick
  | _, 0 => (none, [])
  | k, 1 => (some (operation k), [Tick.attempt])
  | k, n + 2 =>
    match operation k with
    | .ok a => (some (.ok a), [Tick.attempt])
    | .error _ =>
      let rest := withRetryFrom operation baseDelay (k + 1) (n + 1)
      (rest.1, Tick.attempt :: Tick.sleep (baseDelay * k) :: rest.2)

/-- The specification's `withRetry(operation, maxAttempts, baseDelay)`; the
attempts are numbered from 1. -/
def withRetry {α : Type} (operation : Nat → Except JsError α) (maxAttempts baseDelay : Nat) :
    Option (Except JsError α) × List Tick :=
  withRetryFrom operation baseDelay 1 maxAttempts

/-- How an outcome of `withRetry` reads as the settlement of an `async`
function that returns `f a` for the operation's result `a`: no attempt at all
is the function falling off its end. -/
def asSettlement {α β : Type} (f : α → β) :
    Option (Except JsError α) → Except JsError (JsResult β)
  | none => .ok .undefined
  | some (.ok a) => .ok (.value (f a))
  | some (.error e) => .error e

/-- The order of the bookkeeping of a pool with at most one worker: `settled`
are the pipeline calls that have settled, in the order they were made. -/
structure Sequential (s : Pool) (settled : List PipelineCall) : Prop where
  calls_eq : s.calls = settled ++ inflight s.workers
  failed_sub : List.Sublist s.failed (settled.map PipelineCall.file)
  progress_sub : List.Sublist (s.progress.map ProgressCall.call) settled

/-! ## `downloadFile` and `_fetchJson` -/

/-- The two request modules, `http` and `https`. -/
inductive Client where
  | http
  | https
deriving DecidableEq, Repr

/-- The function `_getRequestModule(url)`: `https` when `url` starts with
`https://`, else `http`. -/
def _getRequestModule (url : String) : Client :=
  if ("https://".toList).isPrefixOf url.toList then Client.https else Client.http

/-- What the callback of `client.get` reads of a response: the status code,
`headers.location`, and the body the response streams. -/
structure Response where
  statusCode : Nat
  location : Option String
  body : String
deriving DecidableEq, Repr

/-- What a call of `client.get` ends with: a response, or an error, which is
an `error` event on the request or an exception thrown by `client.get` itself
(both reject the promise with the error). -/
inductive Reply where
  | response (r : Response)
  | error (e : JsError)
deriving DecidableEq, Repr

/-- The test `[301, 302, 307, 308].includes(response.statusCode) &&
response.headers.location`. -/
def followsRedirect (r : Response) : Bool :=
  [301, 302, 307, 308].contains r.statusCode && truthy r.location

/-- The error `new Error("HTTP <statusCode> for <url>")`. -/
def httpError (statusCode : Nat) (url : String) : JsError :=
  { message := "HTTP " ++ toString statusCode ++ " for " ++ url }

/-- What the environment does during one call of `downloadFile`: whether
`ensureDir` succeeds, what the request ends with, and whether the write stream
finishes or fails (read only when a stream is opened). -/
structure Hop where
  ensureDir : Except JsError Unit
  reply : Reply
  write : Except JsError Unit

/-- The location a hop redirects to. -/
def Hop.target (h : Hop) : String :=
  match h.reply with
  | .response r => r.location.getD ""
  | .error _ => ""

/-- The calls of `downloadFile` and `_fetchJson` that reach the file system or
the network. -/
inductive NetEffect where
  /-- The call `this.ensureDir(path.dirname(filePath))`. -/
  | ensureDir (filePath : String)
  | get (client : Client) (url : String)
  | createWriteStream (filePath : String)
  | unlink (filePath : String)
deriving DecidableEq, Repr

/-- The files on disk: the contents at each path. -/
abbrev Disk := String → Option String

/-- A settled `downloadFile`: how it settled, the disk it leaves, its calls. -/
structure Download where
  result : Except JsError Unit
  disk : Disk
  trace : List NetEffect

/-- The function `downloadFile(url, filePath)` on the disk `disk`, against the
reactions `hops` of the environment, one for each (recursive) call; `none`
when the reactions run out before the promise settles (it stays pending).
The reactions are what the calls end with; which of them a call to a given URL
can end with is the matter of `received`.
A thrown `ensureDir` and an `error` event reject; a followed redirect calls
`downloadFile` for the location, with the same path; another status than 200
rejects with `HTTP <status> for <url>`; on 200 the body is piped to a write
stream on `filePath`: on `finish` the file holds the body, on `error` the file
is unlinked and the promise rejects. -/
def downloadFile (disk : Disk) : List Hop → String → String → Option Download
  | [], _, _ => none
  | hop :: hops, url, filePath =>
    match hop.ensureDir with
    | .error e =>
      some { result := .error e, disk := disk, trace := [NetEffect.ensureDir filePath] }
    | .ok _ =>
      let sent := [NetEffect.ensureDir filePath, NetEffect.get (_getRequestModule url) url]
      match hop.reply with
      | .error e => some { result := .error e, disk := disk, trace := sent }
      | .response r =>
        if followsRedirect r then
          match downloadFile disk hops (r.location.getD "") filePath with
          | none => none
          | some d => some { d with trace := sent ++ d.trace }
        else if r.statusCode != 200 then
          some { result := .error (httpError r.statusCode url), disk := disk, trace := sent }
        else
          match hop.write with
          | .ok _ =>
            some { result := .ok (), disk := Function.update disk filePath (some r.body),
                   trace := sent ++ [NetEffect.createWriteStream filePath] }
          | .error e =>
            some { result := .error e, disk := Function.update disk filePath none,
                   trace := sent ++ [NetEffect.createWriteStream filePath,
                                     NetEffect.unlink filePath] }

/-- A settled `_fetchJson`: how it settled, and its calls. -/
structure JsonFetch (J : Type) where
  result : Except JsError J
  trace : List NetEffect

/-- The function `_fetchJson(url)` against the replies of the network, one for
each (recursive) call; `none` when they run out before the promise settles.
`parse` is `JSON.parse`, taken as a parameter: it gives the document, or the
message of the error it throws. -/
def _fetchJson {J : Type} (parse : String → Except String J) :
    List Reply → String → Option (JsonFetch J)
  | [], _ => none
  | reply :: replies, url =>
    let sent := [NetEffect.get (_getRequestModule url) url]
    match reply with
    | .error e => some { result := .error e, trace := sent }
    | .response r =>
      if followsRedirect r then
        match _fetchJson parse replies (r.location.getD "") with
        | none => none
        | some d => some { d with trace := sent ++ d.trace }
      else if r.statusCode != 200 then
        some { result := .error (httpError r.statusCode url), trace := sent }
      else
        match parse r.body with
        | .ok data => some { result := .ok data, trace := sent }
        | .error message =>
          some { result := .error { message := "JSON parse error: " ++ message }, trace := sent }

/-- The URLs requested in a trace, in order. -/
def gets : List NetEffect → List String
  | [] => []
  | .get _ url :: es => url :: gets es
  | _ :: es => gets es

/-- A followed redirect to `location`, the directory being there. -/
def hopRedirect (statusCode : Nat) (location : String) : Hop :=
  { ensureDir := .ok (),
    reply := .response { statusCode := statusCode, location := some location, body := "" },
    write := .ok () }

/-- A response with status `statusCode` and body `body`, without `Location`,
the directory being there and the write stream finishing. -/
def hopStatus (statusCode : Nat) (body : String) : Hop :=
  { ensureDir := .ok (),
    reply := .response { statusCode := statusCode, location := none, body := body },
    write := .ok () }

/-- A disk with no file. -/
def emptyDisk : Disk := fun _ => none

/-- A `JSON.parse` that accepts only the text `1`. -/
def parseOne : String → Except String Nat :=
  fun text => if text = "1" then .ok 1 else .error "Unexpected token"

/-- The replies to the attempts of a `fetchJson`: always 200 with a body that
is not JSON. -/
def repliesMalformed : Nat → List Reply :=
  fun _ => [Reply.response { statusCode := 200, location := none, body := "<html>" }]

/-- The settlements of `_fetchJson` on `repliesMalformed`. -/
def fetchMalformed : Nat → Except JsError Nat :=
  fun _ => .error { message := "JSON parse error: Unexpected token" }

/-! ## `calculateSha1` -/

/-- Modelled from the spec: the five 32-bit words of the SHA-1 state.  The
digest is computed by Node's `crypto` module, which is not code of this
repository; the specification names the algorithm, SHA-1 (FIPS 180-4). -/
structure Sha1Words where
  a : Nat
  b : Nat
  c : Nat
  d : Nat
  e : Nat
deriving DecidableEq, Repr

/-- A number as a 32-bit word. -/
def word (x : Nat) : Nat := x % 2 ^ 32

/-- Rotation of a 32-bit word to the left by `n` bits. -/
def rotl (n x : Nat) : Nat := word ((x <<< n) ||| (x >>> (32 - n)))

/-- Modelled from the spec: the initial hash value of SHA-1. -/
def sha1Initial : Sha1Words :=
  { a := 0x67452301, b := 0xEFCDAB89, c := 0x98BADCFE, d := 0x10325476, e := 0xC3D2E1F0 }

/-- Modelled from the spec: the round function of SHA-1 in round `t`. -/
def sha1F (t b c d : Nat) : Nat :=
  if t < 20 then (b &&& c) ||| ((b ^^^ 0xFFFFFFFF) &&& d)
  else if t < 40 then b ^^^ c ^^^ d
  else if t < 60 then (b &&& c) ||| (b &&& d) ||| (c &&& d)
  else b ^^^ c ^^^ d

/-- Modelled from the spec: the round constant of SHA-1 in round `t`. -/
def sha1K (t : Nat) : Nat :=
  if t < 20 then 0x5A827999
  else if t < 40 then 0x6ED9EBA1
  else if t < 60 then 0x8F1BBCDC
  else 0xCA62C1D6

/-- The big-endian 32-bit words of a block of bytes. -/
def blockWords : List Nat → List Nat
  | b0 :: b1 :: b2 :: b3 :: rest => (((b0 * 256 + b1) * 256 + b2) * 256 + b3) :: blockWords rest
  | _ => []

/-- Modelled from the spec: the message schedule of SHA-1, the 16 words of the
block extended to 80. -/
def schedule (block : List Nat) : List Nat :=
  (List.range 64).foldl
    (fun ws i =>
      ws ++ [rotl 1 (ws.getD (i + 13) 0 ^^^ ws.getD (i + 8) 0 ^^^ ws.getD (i + 2) 0 ^^^
        ws.getD i 0)])
    (blockWords block)

/-- Modelled from the spec: one round of SHA-1, for the round number and the
schedule word `tw`. -/
def sha1Round (s : Sha1Words) (tw : Nat × Nat) : Sha1Words :=
  { a := word (rotl 5 s.a + sha1F tw.1 s.b s.c s.d + s.e + sha1K tw.1 + tw.2),
    b := s.a, c := rotl 30 s.b, d := s.c, e := s.d }

/-- Modelled from the spec: the compression of one 64-byte block into the
hash value. -/
def compress (h : Sha1Words) (block : List Nat) : Sha1Words :=
  let s := ((schedule block).enum).foldl sha1Round h
  { a := word (h.a + s.a), b := word (h.b + s.b), c := word (h.c + s.c),
    d := word (h.d + s.d), e := word (h.e + s.e) }

/-- The eight big-endian bytes of a 64-bit length. -/
def be64 (n : Nat) : List Nat :=
  [n / 2 ^ 56 % 256, n / 2 ^ 48 % 256, n / 2 ^ 40 % 256, n / 2 ^ 32 % 256,
   n / 2 ^ 24 % 256, n / 2 ^ 16 % 256, n / 2 ^ 8 % 256, n % 256]

/-- Modelled from the spec: the padding of a message of `length` bytes: the
byte `0x80`, zeros up to 56 modulo 64, and the length in bits. -/
def padding (length : Nat) : List Nat :=
  0x80 :: List.replicate ((119 - length % 64) % 64) 0 ++ be64 (8 * length)

/-- Bytes enter the hash one at a time; every time the buffer holds 64 bytes
the block is compressed into the hash value. -/
def absorb (h : Sha1Words) (buffer : List Nat) : List Nat → Sha1Words × List Nat
  | [] => (h, buffer)
  | b :: bs =>
    if (buffer ++ [b]).length = 64 then absorb (compress h (buffer ++ [b])) [] bs
    else absorb h (buffer ++ [b]) bs

/-- The four big-endian bytes of a 32-bit word. -/
def wordBytes (w : Nat) : List Nat :=
  [w / 2 ^ 24 % 256, w / 2 ^ 16 % 256, w / 2 ^ 8 % 256, w % 256]

/-- Modelled from the spec: the SHA-1 digest (20 bytes) of a whole message:
the padded message is compressed block by block from the initial value. -/
def sha1 (message : List Nat) : List Nat :=
  let w := (absorb sha1Initial [] (message ++ padding message.length)).1
  wordBytes w.a ++ wordBytes w.b ++ wordBytes w.c ++ wordBytes w.d ++ wordBytes w.e

/-- Modelled from the spec: the hash object `crypto.createHash('sha1')`
returns: the hash value so far, the bytes not yet compressed, and the number of
bytes taken in. -/
structure Hash where
  words : Sha1Words
  buffer : List Nat
  length : Nat

/-- Modelled from the spec: the call `crypto.createHash('sha1')`. -/
def createHash : Hash := { words := sha1Initial, buffer := [], length := 0 }

/-- Modelled from the spec: the call `hash.update(data)`. -/
def Hash.update (hash : Hash) (data : List Nat) : Hash :=
  let r := absorb hash.words hash.buffer data
  { words := r.1, buffer := r.2, length := hash.length + data.length }

/-- Modelled from the spec: the bytes of `hash.digest()`: the buffered bytes
are padded and compressed. -/
def Hash.digest (hash : Hash) : List Nat :=
  let w := (absorb hash.words hash.buffer (padding hash.length)).1
  wordBytes w.a ++ wordBytes w.b ++ wordBytes w.c ++ wordBytes w.d ++ wordBytes w.e

/-- The lowercase hexadecimal digit of a number below 16. -/
def hexDigit (n : Nat) : Char :=
  ['0', '1', '2', '3', '4', '5', '6', '7', '8', '9', 'a', 'b', 'c', 'd', 'e', 'f'].getD n '0'

/-- The encoding `'hex'` of bytes: two lowercase digits for each byte. -/
def hex (bytes : List Nat) : String :=
  String.mk (bytes.flatMap (fun b => [hexDigit (b / 16), hexDigit (b % 16)]))

/-- The function `calculateSha1(filePath)` against the events of the read
stream on the file: the `data` chunks, in order, then `end`, or `error`.  Each
chunk goes to `hash.update`; on `end` the promise resolves with
`hash.digest('hex')`, on `error` it rejects. -/
def calculateSha1 (chunks : List (List Nat)) (ending : Except JsError Unit) :
    Except JsError String :=
  match ending with
  | .error e => .error e
  | .ok _ => .ok (hex (chunks.foldl Hash.update createHash).digest)

/-- The bytes of a text of ASCII characters. -/
def asciiBytes (text : String) : List Nat := text.toList.map Char.toNat

/-! ## The URL a request module accepts -/

/-- The protocol of a request module. -/
def Client.protocol : Client → String
  | .http => "http"
  | .https => "https"

/-- A character of a URL scheme after the first: a letter, a digit, `+`, `-`
or `.`. -/
def schemeChar (c : Char) : Bool :=
  c.isAlphanum || c == '+' || c == '-' || c == '.'

/-- The scheme of a URL string, in lower case: the characters before the
first `:`, when they start with a letter and are scheme characters; leading
spaces and control characters are skipped.  A string with no scheme is a
relative reference. -/
def urlScheme (url : String) : Option String :=
  match (url.toList.dropWhile (fun c => c.toNat ≤ 32)).span schemeChar with
  | (c :: cs, ':' :: _) =>
    if c.isAlpha then some (String.mk ((c :: cs).map Char.toLower)) else none
  | _ => none

/-- What `client.get(url, ...)` of Node's `http` and `https` modules (not code
of this repository) throws before any request is made, as far as the scheme
decides it: a string with no scheme is not a URL (`Invalid URL`), and a scheme
other than the module's protocol is not supported (the message quotes both
protocols).  What follows the scheme is not examined. -/
def requestError (client : Client) (url : String) : Option JsError :=
  match urlScheme url with
  | none => some { message := "Invalid URL" }
  | some scheme =>
    if scheme = client.protocol then none
    else some { message := "Protocol \x22" ++ scheme ++ ":\x22 not supported. Expected \x22" ++
      client.protocol ++ ":\x22" }

/-- The reactions the calls of `downloadFile` end with when the servers and the
file system are ready to react with `hops` and `check` is what `client.get`
throws for a module and a URL: the call for a URL that `client.get` rejects
ends with that error and no later call is made; the other calls end as `hops`
says, a followed redirect leading to the call for its location. -/
def received (check : Client → String → Option JsError) : List Hop → String → List Hop
  | [], _ => []
  | hop :: hops, url =>
    match check (_getRequestModule url) url with
    | some e => [{ hop with reply := Reply.error e }]
    | none =>
      match hop.reply with
      | .response r =>
        if followsRedirect r then hop :: received check hops (r.location.getD "")
        else hop :: hops
      | .error _ => hop :: hops

/-! ## Lists -/

theorem get?_split {α : Type} (l : List α) (i : Nat) (a : α) (h : l[i]? = some a) :
    ∃ l1 l2, l = l1 ++ a :: l2 ∧ l1.length = i ∧ ∀ b, l.set i b = l1 ++ b :: l2 := by
  induction l generalizing i with
  | nil => simp at h
  | cons x xs ih =>
    cases i with
    | zero =>
      simp at h
      exact ⟨[], xs, by simp [h], rfl, fun b => by simp⟩
    | succ n =>
      simp at h
      obtain ⟨l1, l2, h1, h2, h3⟩ := ih n h
      exact ⟨x :: l1, l2, by simp [h1], by simp [h2], fun b => by simp [h3]⟩

theorem positioned_length (k : Nat) (ts : List DownloadTask) :
    (positioned k ts).length = ts.length := by
  simp [positioned]

theorem positioned_map_file (k : Nat) (ts : List DownloadTask) :
    (positioned k ts).map PipelineCall.file = ts := by
  induction ts generalizing k with
  | nil => rfl
  | cons t ts ih =>
    have := ih (k + 1)
    simp [positioned, List.enumFrom_cons] at this ⊢
    exact this

theorem positioned_map_pos (k : Nat) (ts : List DownloadTask) :
    (positioned k ts).map PipelineCall.pos = List.range' k ts.length := by
  induction ts generalizing k with
  | nil => rfl
  | cons t ts ih =>
    have := ih (k + 1)
    simp [positioned, List.enumFrom_cons, List.range'_succ] at this ⊢
    exact this

theorem positioned_map_obj (k : Nat) (ts : List DownloadTask) :
    (positioned k ts).map (fun c => JsFile.obj c.file) = ts.map JsFile.obj := by
  have h := positioned_map_file k ts
  rw [← h, List.map_map]
  simp [h]

theorem positioned_split_pos (ts : List DownloadTask) (l1 l2 : List PipelineCall)
    (c : PipelineCall) (h : l1 ++ c :: l2 = positioned 0 ts) : c.pos = l1.length := by
  have h1 := congrArg (List.map PipelineCall.pos) h
  rw [positioned_map_pos] at h1
  have hlen : l1.length < ts.length := by
    have := congrArg List.length h
    rw [positioned_length] at this
    simp at this
    omega
  have h3 : (List.map PipelineCall.pos (l1 ++ c :: l2))[l1.length]? = some c.pos := by
    rw [List.map_append, List.getElem?_append_right (by simp)]
    simp
  rw [h1, List.getElem?_range' _ _ hlen] at h3
  simpa using h3.symm

/-! ## The worker between two suspensions -/

theorem inflight_append (ws1 ws2 : List Worker) :
    inflight (ws1 ++ ws2) = inflight ws1 ++ inflight ws2 := by
  simp [inflight, List.filterMap_append]

theorem inflight_awaiting (pos : Nat) (file : DownloadTask) (ws : List Worker) :
    inflight (Worker.awaiting pos file :: ws) = { pos := pos, file := file } :: inflight ws := by
  simp [inflight, List.filterMap_cons]

theorem inflight_finished (ws : List Worker) :
    inflight (Worker.finished :: ws) = inflight ws := by
  simp [inflight, List.filterMap_cons]

/-- What `workerNext` does to a pool whose queue holds the task objects `rest`:
with an empty queue nothing, and the worker finishes; otherwise it shifts the
head, calls the pipeline for it and suspends. -/
theorem workerNext_inv {ts : List DownloadTask} {s : Pool} {rest : List PipelineCall}
    (htotal : s.total = ts.length)
    (hqueue : s.queue = rest.map (fun c => JsFile.obj c.file))
    (hcalls : s.calls ++ rest = positioned 0 ts) :
    ∃ rest2 : List PipelineCall,
      (workerNext s).1 = { s with queue := rest2.map (fun c => JsFile.obj c.file),
                                  calls := s.calls ++ inflight [(workerNext s).2] } ∧
      (s.calls ++ inflight [(workerNext s).2]) ++ rest2 = positioned 0 ts ∧
      ((workerNext s).2 = Worker.finished → rest2 = []) ∧
      (rest = [] → rest2 = []) ∧
      rest2.length + (inflight [(workerNext s).2]).length = rest.length := by
  cases rest with
  | nil =>
    refine ⟨[], ?_, ?_, fun _ => rfl, fun _ => rfl, ?_⟩
    · cases s
      simp at hqueue
      simp [workerNext, hqueue, inflight]
    · simp at hqueue
      simpa [workerNext, hqueue, inflight] using hcalls
    · simp at hqueue
      simp [workerNext, hqueue, inflight]
  | cons c rest2 =>
    have hpos : c.pos = s.calls.length := positioned_split_pos ts s.calls rest2 c hcalls
    have hlen : s.calls.length + (rest2.length + 1) = ts.length := by
      have := congrArg List.length hcalls
      rw [positioned_length] at this
      simpa using this
    have hq : s.queue = JsFile.obj c.file :: rest2.map (fun c => JsFile.obj c.file) := by
      simpa using hqueue
    have hp : s.total - (rest2.length + 1) = c.pos := by omega
    have hc : ({ pos := c.pos, file := c.file } : PipelineCall) = c := rfl
    refine ⟨rest2, ?_, ?_, ?_, ?_, ?_⟩
    · simp [workerNext, hq, inflight, hp, hc]
    · simpa [workerNext, hq, inflight, hp, hc] using hcalls
    · simp [workerNext, hq]
    · simp
    · simp [workerNext, hq, inflight]

/-- The accounts only read the counters and logs, not the queue, the calls or
the workers. -/
theorem Accounts.congr {rt : Runtime} {cb : Option ProgressCallback} {s s2 : Pool}
    {settled : List PipelineCall} (h : Accounts rt cb s settled)
    (h1 : s2.completed = s.completed) (h2 : s2.total = s.total) (h3 : s2.failed = s.failed)
    (h4 : s2.progress = s.progress) (h5 : s2.errors = s.errors) : Accounts rt cb s2 settled := by
  constructor
  · rw [h1]; exact h.completed_eq
  · rw [h4]; exact h.progress_some
  · rw [h4]; exact h.progress_none
  · rw [h3, h4]; exact h.failed_perm
  · rw [h4, h2]; exact h.numbering
  · rw [h5, h3]; exact h.errors_eq

theorem afterAwait_frame (u : Util) (cb : Option ProgressCallback) (pos : Nat)
    (file : DownloadTask) (r : Except JsError (JsResult Bool)) (s : Pool) :
    (afterAwait u cb pos file r s).queue = s.queue ∧
    (afterAwait u cb pos file r s).calls = s.calls ∧
    (afterAwait u cb pos file r s).workers = s.workers ∧
    (afterAwait u cb pos file r s).total = s.total := by
  unfold afterAwait
  cases r with
  | error e => simp [workerCatch]
  | ok v =>
    cases cb with
    | none => simp
    | some f =>
      simp only
      cases f (s.completed + 1) s.total file <;> simp [workerCatch]

/-- The worker's `try`/`catch` keeps the accounts: the settled pipeline call
joins `settled`. -/
theorem afterAwait_accounts {rt : Runtime} {cb : Option ProgressCallback} {s : Pool}
    {settled : List PipelineCall} (h : Accounts rt cb s settled) (c : PipelineCall) :
    Accounts rt cb (afterAwait rt.util cb c.pos c.file (pipeline rt c.pos c.file) s)
      (settled ++ [c]) := by
  unfold afterAwait
  cases hr : pipeline rt c.pos c.file with
  | error e =>
    have hres : resolved rt c = false := by simp [resolved, hr]
    constructor
    · simpa [workerCatch, List.filter_append, hres] using h.completed_eq
    · simpa [workerCatch, List.filter_append, hres] using h.progress_some
    · simpa [workerCatch] using h.progress_none
    · simp only [workerCatch, List.filter_append, List.map_append]
      simp only [List.filter_cons, hres, List.filter_nil]
      simp only [Bool.not_false, if_true, List.map_cons, List.map_nil]
      refine (h.failed_perm.append_right [c.file]).trans ?_
      simp only [List.append_assoc]
      exact List.Perm.append_left _ List.perm_append_comm
    · simpa [workerCatch] using h.numbering
    · simp [workerCatch, h.errors_eq]
  | ok v =>
    have hres : resolved rt c = true := by simp [resolved, hr]
    cases cb with
    | none =>
      constructor
      · simp [List.filter_append, hres, h.completed_eq]
      · simp
      · intro _; simpa using h.progress_none rfl
      · simpa [List.filter_append, hres] using h.failed_perm
      · simpa using h.numbering
      · simpa using h.errors_eq
    | some f =>
      have hlen : s.progress.length = s.completed := by
        have := congrArg List.length (h.progress_some rfl)
        rw [List.length_map] at this
        rw [this, h.completed_eq]
      have hnum : List.map (fun e => (e.completed, e.total))
            (s.progress ++ [{ completed := s.completed + 1, total := s.total, file := c.file,
                              pos := c.pos }]) =
          List.map (fun k => (k, s.total)) (List.range' 1 (s.progress.length + 1)) := by
        rw [List.map_append, h.numbering, List.range'_concat, List.map_append, hlen]
        simp [Nat.add_comm]
      simp only
      cases hf : f (s.completed + 1) s.total c.file with
      | ok x =>
        have hthrew : threw (some f) (⟨s.completed + 1, s.total, c.file, c.pos⟩ : ProgressCall)
            = false := by simp [threw, hf]
        constructor
        · simp [List.filter_append, hres, h.completed_eq]
        · intro _
          simp [List.filter_append, hres, h.progress_some rfl, ProgressCall.call]
        · intro hn; cases hn
        · simpa [List.filter_append, hres, hthrew] using h.failed_perm
        · simpa using hnum
        · simpa using h.errors_eq
      | error e =>
        have hthrew : threw (some f) (⟨s.completed + 1, s.total, c.file, c.pos⟩ : ProgressCall)
            = true := by simp [threw, hf]
        constructor
        · simp [workerCatch, List.filter_append, hres, h.completed_eq]
        · intro _
          simp [workerCatch, List.filter_append, hres, h.progress_some rfl, ProgressCall.call]
        · intro hn; cases hn
        · simp only [workerCatch, List.filter_append, List.map_append]
          simp only [List.filter_cons, hres, hthrew, List.filter_nil]
          simp only [Bool.not_true, if_true, List.map_cons, List.map_nil, List.append_nil]
          refine (h.failed_perm.append_right [c.file]).trans ?_
          simp [List.append_assoc]
        · simpa [workerCatch] using hnum
        · simp [workerCatch, h.errors_eq]

/-! ## The invariant along a run -/

theorem inv_init (rt : Runtime) (cb : Option ProgressCallback) (ts : List DownloadTask) :
    Inv rt cb ts (Pool.init (ts.map JsFile.obj)) (positioned 0 ts) [] := by
  constructor
  · simp [Pool.init]
  · simp [Pool.init, positioned_map_obj]
  · simp [Pool.init]
  · simp [Pool.init, inflight]
  · simp [Pool.init]
  · constructor <;> simp [Pool.init]

theorem inv_spawn {rt : Runtime} {cb : Option ProgressCallback} {ts : List DownloadTask}
    {s : Pool} {rest settled : List PipelineCall} (h : Inv rt cb ts s rest settled) :
    ∃ rest2, Inv rt cb ts (spawn s) rest2 settled := by
  obtain ⟨rest2, h1, h2, h3, h4, _⟩ := workerNext_inv h.total_eq h.queue_eq h.calls_eq
  refine ⟨rest2, ?_⟩
  have hs : spawn s = { s with queue := rest2.map (fun c => JsFile.obj c.file),
                               calls := s.calls ++ inflight [(workerNext s).2],
                               workers := s.workers ++ [(workerNext s).2] } := by
    simp only [spawn]
    rw [h1]
  rw [hs]
  constructor
  · exact h.total_eq
  · rfl
  · exact h2
  · simp only [inflight_append]
    rw [← List.append_assoc]
    exact h.calls_perm.append_right _
  · intro hmem
    simp only [List.mem_append, List.mem_singleton] at hmem
    rcases hmem with hmem | hmem
    · have hq := h.drained hmem
      rw [h.queue_eq] at hq
      have : rest = [] := by simpa using hq
      simp [h4 this]
    · simp [h3 hmem.symm]
  · exact h.accounts.congr rfl rfl rfl rfl rfl

theorem inv_resume {rt : Runtime} {cb : Option ProgressCallback} {ts : List DownloadTask}
    {s : Pool} {rest settled : List PipelineCall} (h : Inv rt cb ts s rest settled) (i : Nat) :
    ∃ rest2 settled2, Inv rt cb ts (resume rt cb i s) rest2 settled2 := by
  unfold resume
  cases hw : s.workers[i]? with
  | none => exact ⟨rest, settled, h⟩
  | some w =>
    cases w with
    | finished => exact ⟨rest, settled, h⟩
    | awaiting pos file =>
      obtain ⟨l1, l2, hl, _, hset⟩ := get?_split s.workers i _ hw
      obtain ⟨hfq, hfc, hfw, hft⟩ :=
        afterAwait_frame rt.util cb pos file (pipeline rt pos file) s
      have hacc := afterAwait_accounts h.accounts { pos := pos, file := file }
      simp only
      generalize afterAwait rt.util cb pos file (pipeline rt pos file) s = s1 at hfq hfc hfw hft hacc ⊢
      obtain ⟨rest2, h1, h2, h3, h4, _⟩ :=
        @workerNext_inv ts s1 rest (by rw [hft]; exact h.total_eq)
          (by rw [hfq]; exact h.queue_eq) (by rw [hfc]; exact h.calls_eq)
      refine ⟨rest2, settled ++ [{ pos := pos, file := file }], ?_⟩
      rw [h1]
      simp only [hfw, hset]
      constructor
      · exact hft.trans h.total_eq
      · rfl
      · exact h2
      · simp only [hfc, inflight_append]
        have hp := h.calls_perm
        rw [hl, inflight_append, inflight_awaiting] at hp
        have e1 : inflight ((workerNext s1).2 :: l2) = inflight [(workerNext s1).2] ++ inflight l2 := by
          rw [← inflight_append]; rfl
        rw [e1]
        refine (hp.append_right _).trans ?_
        rw [← Multiset.coe_eq_coe]
        simp only [← Multiset.coe_add, ← Multiset.singleton_add, ← Multiset.cons_coe]
        abel
      · intro hmem
        have hcase : Worker.finished ∈ s.workers ∨ (workerNext s1).2 = Worker.finished := by
          rw [hl]
          simp only [List.mem_append, List.mem_cons] at hmem ⊢
          rcases hmem with hmem | hmem | hmem
          · exact Or.inl (Or.inl hmem)
          · exact Or.inr hmem.symm
          · exact Or.inl (Or.inr (Or.inr hmem))
        rcases hcase with hmem | hmem
        · have hq := h.drained hmem
          rw [h.queue_eq] at hq
          have : rest = [] := by simpa using hq
          simp [h4 this]
        · simp [h3 hmem]
      · exact hacc.congr rfl rfl rfl rfl rfl

/-! ## Schedules -/

theorem allFinished_iff (ws : List Worker) :
    (ws.all (fun w => w == Worker.finished)) = true ↔ ∀ w ∈ ws, w = Worker.finished := by
  simp [List.all_eq_true]

theorem inflight_of_allFinished (ws : List Worker) (h : ∀ w ∈ ws, w = Worker.finished) :
    inflight ws = [] := by
  induction ws with
  | nil => rfl
  | cons w ws ih =>
    have hw : w = Worker.finished := h w (List.mem_cons_self _ _)
    subst hw
    rw [inflight_finished]
    exact ih (fun x hx => h x (List.mem_cons_of_mem _ hx))

theorem allFinished_of_inflight (ws : List Worker) (h : inflight ws = []) :
    ∀ w ∈ ws, w = Worker.finished := by
  induction ws with
  | nil => simp
  | cons w ws ih =>
    cases w with
    | finished =>
      rw [inflight_finished] at h
      intro x hx
      rcases List.mem_cons.1 hx with hx | hx
      · exact hx
      · exact ih h x hx
    | awaiting pos file =>
      rw [inflight_awaiting] at h
      cases h

theorem awaitingIdx_nil (ws : List Worker) (h : awaitingIdx ws = []) :
    ∀ w ∈ ws, w = Worker.finished := by
  intro w hw
  obtain ⟨i, hi, hget⟩ := List.getElem_of_mem hw
  have hmem : i ∉ awaitingIdx ws := by rw [h]; simp
  simp only [awaitingIdx, List.mem_filter, List.mem_range, not_and] at hmem
  have := hmem hi
  simp [List.getElem?_eq_getElem hi, hget] at this
  exact this

theorem awaitingIdx_mem (ws : List Worker) (i : Nat) (h : i ∈ awaitingIdx ws) :
    ∃ pos file, ws[i]? = some (Worker.awaiting pos file) := by
  simp only [awaitingIdx, List.mem_filter, List.mem_range] at h
  obtain ⟨hi, hne⟩ := h
  rw [List.getElem?_eq_getElem hi] at hne ⊢
  cases hw : ws[i] with
  | finished => simp [hw] at hne
  | awaiting pos file => exact ⟨pos, file, rfl⟩

theorem awaitingIdx_of_allFinished (ws : List Worker) (h : ∀ w ∈ ws, w = Worker.finished) :
    awaitingIdx ws = [] := by
  rw [List.eq_nil_iff_forall_not_mem]
  intro i hi
  obtain ⟨pos, file, hget⟩ := awaitingIdx_mem ws i hi
  have := h _ (List.getElem?_mem hget)
  cases this

/-- A scheduler choice is either idle, when every worker has finished, or the
settlement of the pipeline of a suspended worker. -/
theorem settle_cases (rt : Runtime) (cb : Option ProgressCallback) (j : Nat) (s : Pool) :
    (s.allFinished = true ∧ settle rt cb j s = s) ∨
    (s.allFinished = false ∧ ∃ i pos file, s.workers[i]? = some (Worker.awaiting pos file) ∧
      settle rt cb j s = resume rt cb i s) := by
  unfold settle
  cases hidx : awaitingIdx s.workers with
  | nil =>
    left
    exact ⟨(allFinished_iff _).2 (awaitingIdx_nil _ hidx), rfl⟩
  | cons i rest =>
    right
    have hlt : j % (i :: rest).length < (i :: rest).length := Nat.mod_lt _ (by simp)
    have hmem : (i :: rest).getD (j % (i :: rest).length) i ∈ awaitingIdx s.workers := by
      rw [hidx, List.getD_eq_getElem _ _ hlt]
      exact List.getElem_mem _
    obtain ⟨pos, file, hget⟩ := awaitingIdx_mem _ _ hmem
    refine ⟨?_, _, pos, file, hget, rfl⟩
    cases hfin : s.allFinished with
    | false => rfl
    | true =>
      have := awaitingIdx_of_allFinished _ ((allFinished_iff _).1 hfin)
      rw [hidx] at this
      cases this

theorem workerNext_pending (s : Pool) :
    (workerNext s).1.queue.length + (inflight [(workerNext s).2]).length ≤ s.queue.length ∧
    (workerNext s).1.workers = s.workers := by
  unfold workerNext
  split <;> simp_all [inflight]

theorem spawn_workers_length (s : Pool) : (spawn s).workers.length = s.workers.length + 1 := by
  simp [spawn, (workerNext_pending s).2]

theorem spawn_pending (s : Pool) : (spawn s).pending ≤ s.pending := by
  have h := workerNext_pending s
  simp only [spawn, Pool.pending, h.2, inflight_append, List.length_append]
  omega

theorem resume_workers_length (rt : Runtime) (cb : Option ProgressCallback) (i : Nat) (s : Pool) :
    (resume rt cb i s).workers.length = s.workers.length := by
  unfold resume
  split
  · rename_i pos file _
    simp [(workerNext_pending _).2, (afterAwait_frame rt.util cb pos file (pipeline rt pos file) s).2.2.1]
  · rfl

/-- When the pipeline of a suspended worker settles, one task fewer is pending. -/
theorem resume_pending (rt : Runtime) (cb : Option ProgressCallback) (i : Nat) (s : Pool)
    (pos : Nat) (file : DownloadTask) (hw : s.workers[i]? = some (Worker.awaiting pos file)) :
    (resume rt cb i s).pending < s.pending := by
  obtain ⟨l1, l2, hl, _, hset⟩ := get?_split s.workers i _ hw
  obtain ⟨hfq, _, hfw, _⟩ := afterAwait_frame rt.util cb pos file (pipeline rt pos file) s
  unfold resume
  rw [hw]
  simp only
  generalize afterAwait rt.util cb pos file (pipeline rt pos file) s = s1 at hfq hfw ⊢
  have h := workerNext_pending s1
  have e1 : inflight ((workerNext s1).2 :: l2) = inflight [(workerNext s1).2] ++ inflight l2 := by
    rw [← inflight_append]; rfl
  simp only [Pool.pending, h.2, hfw, hset]
  simp only [hl, inflight_append, inflight_awaiting, e1, List.length_append, List.length_cons]
  rw [hfq] at h
  omega

theorem settle_workers_length (rt : Runtime) (cb : Option ProgressCallback) (j : Nat) (s : Pool) :
    (settle rt cb j s).workers.length = s.workers.length := by
  rcases settle_cases rt cb j s with ⟨_, h⟩ | ⟨_, i, _, _, _, h⟩
  · rw [h]
  · rw [h, resume_workers_length]

theorem spawnAll_workers_length (n : Nat) (s : Pool) :
    (spawnAll n s).workers.length = s.workers.length + n := by
  induction n generalizing s with
  | zero => rfl
  | succ n ih =>
    simp only [spawnAll]
    rw [ih, spawn_workers_length]
    omega

theorem spawnAll_pending (n : Nat) (s : Pool) : (spawnAll n s).pending ≤ s.pending := by
  induction n generalizing s with
  | zero => exact Nat.le_refl _
  | succ n ih =>
    simp only [spawnAll]
    exact Nat.le_trans (ih _) (spawn_pending s)

theorem run_workers_length (rt : Runtime) (cb : Option ProgressCallback) (sched : List Nat)
    (s : Pool) :
    (sched.foldl (fun s j => settle rt cb j s) s).workers.length = s.workers.length := by
  induction sched generalizing s with
  | nil => rfl
  | cons j js ih =>
    simp only [List.foldl_cons]
    rw [ih, settle_workers_length]

/-- Every schedule at least as long as the number of pending tasks ends with
all workers finished: each choice settles one pipeline, and each settlement
leaves one task fewer pending. -/
theorem run_finishes (rt : Runtime) (cb : Option ProgressCallback) (sched : List Nat) (s : Pool)
    (h : s.allFinished = true ∨ s.pending ≤ sched.length) :
    (sched.foldl (fun s j => settle rt cb j s) s).allFinished = true := by
  induction sched generalizing s with
  | nil =>
    rcases h with h | h
    · exact h
    · have hin : inflight s.workers = [] := by
        simp only [Pool.pending, List.length_nil] at h
        exact List.eq_nil_of_length_eq_zero (by omega)
      exact (allFinished_iff _).2 (allFinished_of_inflight _ hin)
  | cons j js ih =>
    simp only [List.foldl_cons]
    apply ih
    rcases settle_cases rt cb j s with ⟨hfin, hs⟩ | ⟨hfin, i, pos, file, hw, hs⟩
    · left; rw [hs]; exact hfin
    · right
      rcases h with h | h
      · rw [hfin] at h; cases h
      · have := resume_pending rt cb i s pos file hw
        rw [hs]
        simp only [List.length_cons] at h
        omega

theorem poolAfter_workers_length (rt : Runtime) (files : List JsFile) (concurrency : Int)
    (cb : Option ProgressCallback) (sched : List Nat) :
    (poolAfter rt files concurrency cb sched).workers.length = concurrency.toNat := by
  simp [poolAfter, run_workers_length, spawnAll_workers_length, Pool.init]

theorem poolAfter_finishes (rt : Runtime) (files : List JsFile) (concurrency : Int)
    (cb : Option ProgressCallback) (sched : List Nat) (h : files.length ≤ sched.length) :
    (poolAfter rt files concurrency cb sched).allFinished = true := by
  apply run_finishes
  right
  refine Nat.le_trans (spawnAll_pending _ _) ?_
  simpa [Pool.pending, Pool.init, inflight] using h

theorem inv_settle {rt : Runtime} {cb : Option ProgressCallback} {ts : List DownloadTask}
    {s : Pool} {rest settled : List PipelineCall} (h : Inv rt cb ts s rest settled) (j : Nat) :
    ∃ rest2 settled2, Inv rt cb ts (settle rt cb j s) rest2 settled2 := by
  rcases settle_cases rt cb j s with ⟨_, hs⟩ | ⟨_, i, _, _, _, hs⟩
  · rw [hs]; exact ⟨rest, settled, h⟩
  · rw [hs]; exact inv_resume h i

theorem inv_spawnAll {rt : Runtime} {cb : Option ProgressCallback} {ts : List DownloadTask}
    (n : Nat) {s : Pool} {rest settled : List PipelineCall} (h : Inv rt cb ts s rest settled) :
    ∃ rest2 settled2, Inv rt cb ts (spawnAll n s) rest2 settled2 := by
  induction n generalizing s rest with
  | zero => exact ⟨rest, settled, h⟩
  | succ n ih =>
    obtain ⟨rest2, h2⟩ := inv_spawn h
    exact ih h2

theorem inv_run {rt : Runtime} {cb : Option ProgressCallback} {ts : List DownloadTask}
    (sched : List Nat) {s : Pool} {rest settled : List PipelineCall}
    (h : Inv rt cb ts s rest settled) :
    ∃ rest2 settled2, Inv rt cb ts (sched.foldl (fun s j => settle rt cb j s) s) rest2 settled2 := by
  induction sched generalizing s rest settled with
  | nil => exact ⟨rest, settled, h⟩
  | cons j js ih =>
    obtain ⟨rest2, settled2, h2⟩ := inv_settle h j
    exact ih h2

/-- The invariant holds in every state of a batch over task objects. -/
theorem inv_poolAfter (rt : Runtime) (ts : List DownloadTask) (concurrency : Int)
    (cb : Option ProgressCallback) (sched : List Nat) :
    ∃ rest settled,
      Inv rt cb ts (poolAfter rt (ts.map JsFile.obj) concurrency cb sched) rest settled := by
  obtain ⟨rest, settled, h⟩ := inv_spawnAll concurrency.toNat (inv_init rt cb ts)
  exact inv_run sched h

/-- What the invariant gives once every worker of a non-empty pool has
finished: every position was called, and every call has settled. -/
theorem inv_final {rt : Runtime} {cb : Option ProgressCallback} {ts : List DownloadTask}
    {s : Pool} {rest settled : List PipelineCall} (h : Inv rt cb ts s rest settled)
    (hfin : s.allFinished = true) (hne : 0 < s.workers.length) :
    s.calls = positioned 0 ts ∧ List.Perm (positioned 0 ts) settled := by
  have hall := (allFinished_iff _).1 hfin
  have hmem : Worker.finished ∈ s.workers := by
    cases hws : s.workers with
    | nil => rw [hws] at hne; cases hne
    | cons w ws =>
      have := hall w (by rw [hws]; exact List.mem_cons_self _ _)
      rw [this]
      exact List.mem_cons_self _ _
  have hq := h.drained hmem
  rw [h.queue_eq] at hq
  have hrest : rest = [] := by simpa using hq
  have hcalls : s.calls = positioned 0 ts := by
    have := h.calls_eq
    rw [hrest, List.append_nil] at this
    exact this
  refine ⟨hcalls, ?_⟩
  have hp := h.calls_perm
  rw [inflight_of_allFinished _ hall, List.append_nil, hcalls] at hp
  exact hp

/-- Every suspended worker can be the next one whose pipeline settles: the
scheduler choices cover every order of settlement. -/
theorem settle_complete (rt : Runtime) (cb : Option ProgressCallback) (i : Nat) (s : Pool)
    (pos : Nat) (file : DownloadTask) (hw : s.workers[i]? = some (Worker.awaiting pos file)) :
    ∃ j, settle rt cb j s = resume rt cb i s := by
  have hi : i < s.workers.length := by
    by_contra hc
    rw [List.getElem?_eq_none (by omega)] at hw
    cases hw
  have hmem : i ∈ awaitingIdx s.workers := by
    simp only [awaitingIdx, List.mem_filter, List.mem_range]
    exact ⟨hi, by simp [hw]⟩
  obtain ⟨n, hn, hget⟩ := List.getElem_of_mem hmem
  refine ⟨n, ?_⟩
  unfold settle
  cases hidx : awaitingIdx s.workers with
  | nil => rw [hidx] at hn; cases hn
  | cons a rest =>
    have hn2 : n < (a :: rest).length := by rw [← hidx]; exact hn
    have hget2 : (a :: rest)[n] = i := by
      simp only [← hget, hidx]
    simp only [Nat.mod_eq_of_lt hn2, List.getD_eq_getElem _ _ hn2, hget2]

theorem workerNext_frame (s : Pool) :
    (workerNext s).1.completed = s.completed ∧ (workerNext s).1.failed = s.failed ∧
    (workerNext s).1.total = s.total ∧ (workerNext s).1.progress = s.progress := by
  unfold workerNext
  split <;> simp

theorem afterAwait_monotone (u : Util) (cb : Option ProgressCallback) (pos : Nat)
    (file : DownloadTask) (r : Except JsError (JsResult Bool)) (s : Pool) :
    s.completed ≤ (afterAwait u cb pos file r s).completed ∧
    s.failed.length ≤ (afterAwait u cb pos file r s).failed.length := by
  unfold afterAwait
  cases r with
  | error e => simp [workerCatch]
  | ok v =>
    cases cb with
    | none => simp
    | some f =>
      simp only
      cases f (s.completed + 1) s.total file <;> simp [workerCatch]

/-- No step of a batch decreases `completed` or the length of `failed`. -/
theorem settle_monotone (rt : Runtime) (cb : Option ProgressCallback) (j : Nat) (s : Pool) :
    s.completed ≤ (settle rt cb j s).completed ∧
    s.failed.length ≤ (settle rt cb j s).failed.length ∧
    (spawn s).completed = s.completed ∧ (spawn s).failed = s.failed := by
  refine ⟨?_, ?_, ?_, ?_⟩
  · rcases settle_cases rt cb j s with ⟨_, hs⟩ | ⟨_, i, pos, file, hw, hs⟩
    · rw [hs]
    · rw [hs]
      unfold resume
      rw [hw]
      simp only
      rw [(workerNext_frame _).1]
      exact (afterAwait_monotone _ _ _ _ _ _).1
  · rcases settle_cases rt cb j s with ⟨_, hs⟩ | ⟨_, i, pos, file, hw, hs⟩
    · rw [hs]
    · rw [hs]
      unfold resume
      rw [hw]
      simp only
      rw [(workerNext_frame _).2.1]
      exact (afterAwait_monotone _ _ _ _ _ _).2
  · simp [spawn, (workerNext_frame s).1]
  · simp [spawn, (workerNext_frame s).2.1]

/-- In every state of a batch over task objects the counters add up to at most
`total` plus the number of `onProgress` calls that threw; so to at most `total`
as long as no call of the callback has thrown. -/
theorem state_accounting (rt : Runtime) (ts : List DownloadTask) (concurrency : Int)
    (cb : Option ProgressCallback) (sched : List Nat) :
    (poolAfter rt (ts.map JsFile.obj) concurrency cb sched).completed +
      (poolAfter rt (ts.map JsFile.obj) concurrency cb sched).failed.length ≤
    (poolAfter rt (ts.map JsFile.obj) concurrency cb sched).total +
      ((poolAfter rt (ts.map JsFile.obj) concurrency cb sched).progress.filter (threw cb)).length := by
  obtain ⟨rest, settled, h⟩ := inv_poolAfter rt ts concurrency cb sched
  generalize poolAfter rt (ts.map JsFile.obj) concurrency cb sched = s at h
  have hf := h.accounts.failed_perm.length_eq
  simp only [List.length_append, List.length_map] at hf
  have h3 : settled.length ≤ s.calls.length := by
    have := h.calls_perm.length_eq
    simp only [List.length_append] at this
    omega
  have h4 : s.calls.length ≤ ts.length := by
    have := congrArg List.length h.calls_eq
    rw [positioned_length, List.length_append] at this
    omega
  have h5 := settled.length_eq_length_filter_add (resolved rt)
  rw [h.accounts.completed_eq, hf, h.total_eq]
  omega

/-- The sum of the counters when a batch over task objects has returned:
`total`, and one more for every `onProgress` call that threw. -/
theorem batch_accounting (rt : Runtime) (ts : List DownloadTask) (concurrency : Int)
    (cb : Option ProgressCallback) (sched : List Nat) (hC : 1 ≤ concurrency)
    (hfin : (poolAfter rt (ts.map JsFile.obj) concurrency cb sched).allFinished = true) :
    (poolAfter rt (ts.map JsFile.obj) concurrency cb sched).completed +
      (poolAfter rt (ts.map JsFile.obj) concurrency cb sched).failed.length =
    ts.length +
      ((poolAfter rt (ts.map JsFile.obj) concurrency cb sched).progress.filter (threw cb)).length := by
  obtain ⟨rest, settled, h⟩ := inv_poolAfter rt ts concurrency cb sched
  have hne : 0 < (poolAfter rt (ts.map JsFile.obj) concurrency cb sched).workers.length := by
    rw [poolAfter_workers_length]; omega
  obtain ⟨_, hperm⟩ := inv_final h hfin hne
  have hlen : settled.length = ts.length := by
    rw [← hperm.length_eq, positioned_length]
  have hf := h.accounts.failed_perm.length_eq
  simp only [List.length_append, List.length_map] at hf
  rw [h.accounts.completed_eq, hf, ← hlen, settled.length_eq_length_filter_add (resolved rt)]
  omega

/-! ## The worker pool: claims -/

/-- C1 (defect in the code). One task object, one worker, the pipeline
succeeds and `onProgress` throws: `downloadParallel` resolves with
`completed = 1`, `failed = [task]`, `total = 1`, so that
`completed + failed.length` is 2 and not `total`. -/
theorem downloadParallel_sum_exceeds_total_when_callback_throws :
    downloadParallel rtOk [JsFile.obj taskA] 1 (some throwingCallback) [0] =
      some { completed := 1, total := 1, failed := [taskA] } ∧
    (1 : Nat) + [taskA].length ≠ 1 := by
  constructor
  · rfl
  · decide

/-- C2. In every state of a batch over the task objects `ts` the pipeline calls
made so far are an initial segment of `ts` with its positions (no position is
called twice, each call is for the file at its position); and when the batch
returns, with at least one worker, the calls are exactly the positions
`0 .. ts.length - 1`, once each, with the files of `ts`. -/
theorem downloadParallel_calls_each_position_once (rt : Runtime) (ts : List DownloadTask)
    (concurrency : Int) (cb : Option ProgressCallback) (sched : List Nat)
    (hC : 1 ≤ concurrency) :
    List.IsPrefix (poolAfter rt (ts.map JsFile.obj) concurrency cb sched).calls (positioned 0 ts) ∧
    ((downloadParallel rt (ts.map JsFile.obj) concurrency cb sched).isSome = true →
      (poolAfter rt (ts.map JsFile.obj) concurrency cb sched).calls.map PipelineCall.pos
          = List.range ts.length ∧
      (poolAfter rt (ts.map JsFile.obj) concurrency cb sched).calls.map PipelineCall.file = ts) := by
  obtain ⟨rest, settled, h⟩ := inv_poolAfter rt ts concurrency cb sched
  refine ⟨⟨rest, h.calls_eq⟩, ?_⟩
  intro hret
  have hfin : (poolAfter rt (ts.map JsFile.obj) concurrency cb sched).allFinished = true := by
    unfold downloadParallel at hret
    by_contra hc
    simp [hc] at hret
  have hne : 0 < (poolAfter rt (ts.map JsFile.obj) concurrency cb sched).workers.length := by
    rw [poolAfter_workers_length]; omega
  obtain ⟨hcalls, _⟩ := inv_final h hfin hne
  rw [hcalls, positioned_map_pos, positioned_map_file, List.range_eq_range']
  exact ⟨rfl, rfl⟩

theorem downloadParallel_calls_each_position_once_witness :
    (1 : Int) ≤ 2 ∧
    (downloadParallel rtMixed ([taskA, taskB, taskA].map JsFile.obj) 2 none [1, 0, 0]).isSome = true ∧
    (poolAfter rtMixed ([taskA, taskB, taskA].map JsFile.obj) 2 none [1, 0, 0]).calls.map
        PipelineCall.pos = List.range [taskA, taskB, taskA].length ∧
    (poolAfter rtMixed ([taskA, taskB, taskA].map JsFile.obj) 2 none [1, 0, 0]).calls.map
        PipelineCall.file = [taskA, taskB, taskA] :=
  ⟨by decide, rfl,
   (downloadParallel_calls_each_position_once rtMixed [taskA, taskB, taskA] 2 none [1, 0, 0]
     (by decide)).2 rfl⟩

/-- On return the tasks in `failed` are those whose pipeline failed together
with those whose `onProgress` call threw, and `completed` counts the pipelines
that succeeded. -/
theorem batch_outcomes (rt : Runtime) (ts : List DownloadTask) (concurrency : Int)
    (cb : Option ProgressCallback) (sched : List Nat) (hC : 1 ≤ concurrency)
    (hfin : (poolAfter rt (ts.map JsFile.obj) concurrency cb sched).allFinished = true) :
    (poolAfter rt (ts.map JsFile.obj) concurrency cb sched).completed =
      ((positioned 0 ts).filter (resolved rt)).length ∧
    List.Perm (poolAfter rt (ts.map JsFile.obj) concurrency cb sched).failed
      (((positioned 0 ts).filter (fun c => !resolved rt c)).map PipelineCall.file ++
        ((poolAfter rt (ts.map JsFile.obj) concurrency cb sched).progress.filter (threw cb)).map
          ProgressCall.file) ∧
    (cb.isSome = true →
      List.Perm ((poolAfter rt (ts.map JsFile.obj) concurrency cb sched).progress.map
        ProgressCall.call) ((positioned 0 ts).filter (resolved rt))) := by
  obtain ⟨rest, settled, h⟩ := inv_poolAfter rt ts concurrency cb sched
  have hne : 0 < (poolAfter rt (ts.map JsFile.obj) concurrency cb sched).workers.length := by
    rw [poolAfter_workers_length]; omega
  obtain ⟨_, hperm⟩ := inv_final h hfin hne
  refine ⟨?_, ?_, ?_⟩
  · rw [h.accounts.completed_eq]
    exact ((hperm.filter _).length_eq).symm
  · refine h.accounts.failed_perm.trans ?_
    exact List.Perm.append_right _ (((hperm.filter _).map _).symm)
  · intro hcb
    rw [h.accounts.progress_some hcb]
    exact (hperm.filter _).symm

theorem downloadParallel_isSome (rt : Runtime) (files : List JsFile) (concurrency : Int)
    (cb : Option ProgressCallback) (sched : List Nat) :
    (downloadParallel rt files concurrency cb sched).isSome =
      (poolAfter rt files concurrency cb sched).allFinished := by
  unfold downloadParallel
  cases h : (poolAfter rt files concurrency cb sched).allFinished <;> simp [h]

/-- C3 (defect in the code). One task object whose pipeline succeeds, one
worker, and an `onProgress` that throws: the pipeline of the task did not
fail, yet `downloadParallel` returns the task in `failed`. -/
theorem downloadParallel_failed_holds_succeeded_task :
    resolved rtOk { pos := 0, file := taskA } = true ∧
    downloadParallel rtOk [JsFile.obj taskA] 1 (some throwingCallback) [0] =
      some { completed := 1, total := 1, failed := [taskA] } := by
  constructor <;> rfl

/-- C4. Whatever the pipelines do (any runtime: any set of them may fail), a
batch over task objects resolves with a result as soon as every in-flight
pipeline has settled, that is after `ts.length` settlements in any order; the
result has `total = ts.length`, and with at least one worker every task whose
pipeline failed is in `failed` (the error was caught, the worker went on). -/
theorem downloadParallel_always_resolves (rt : Runtime) (ts : List DownloadTask)
    (concurrency : Int) (cb : Option ProgressCallback) (sched : List Nat)
    (hlen : ts.length ≤ sched.length) :
    ∃ r, downloadParallel rt (ts.map JsFile.obj) concurrency cb sched = some r ∧
      r.total = ts.length ∧
      (1 ≤ concurrency →
        ∀ c ∈ positioned 0 ts, resolved rt c = false → c.file ∈ r.failed) := by
  have hfin : (poolAfter rt (ts.map JsFile.obj) concurrency cb sched).allFinished = true :=
    poolAfter_finishes rt _ concurrency cb sched (by simpa using hlen)
  obtain ⟨rest, settled, h⟩ := inv_poolAfter rt ts concurrency cb sched
  refine ⟨{ completed := (poolAfter rt (ts.map JsFile.obj) concurrency cb sched).completed,
             total := (poolAfter rt (ts.map JsFile.obj) concurrency cb sched).total,
             failed := (poolAfter rt (ts.map JsFile.obj) concurrency cb sched).failed },
    by simp [downloadParallel, hfin], h.total_eq, ?_⟩
  intro hC c hc hres
  obtain ⟨_, hperm, _⟩ := batch_outcomes rt ts concurrency cb sched hC hfin
  refine hperm.symm.subset ?_
  refine List.mem_append_left _ (List.mem_map.2 ⟨c, ?_, rfl⟩)
  exact List.mem_filter.2 ⟨hc, by simp [hres]⟩

theorem downloadParallel_always_resolves_witness :
    [taskA, taskB].length ≤ [1, 0].length ∧
    ∃ r, downloadParallel rt500 ([taskA, taskB].map JsFile.obj) 2 none [1, 0] = some r ∧
      r.total = [taskA, taskB].length ∧
      ((1 : Int) ≤ 2 →
        ∀ c ∈ positioned 0 [taskA, taskB], resolved rt500 c = false → c.file ∈ r.failed) :=
  ⟨by decide, downloadParallel_always_resolves rt500 [taskA, taskB] 2 none [1, 0] (by decide)⟩

/-- C5 (defect in the code). One task object whose pipeline succeeds, one
worker, and an `onProgress` that throws: in the state after the settlement
`completed + failed.length` is 2 and `total` is 1, so the bound
`completed + failed.length ≤ total` fails in a reachable state. -/
theorem downloadParallel_state_exceeds_total :
    (poolAfter rtOk [JsFile.obj taskA] 1 (some throwingCallback) [0]).completed = 1 ∧
    (poolAfter rtOk [JsFile.obj taskA] 1 (some throwingCallback) [0]).failed = [taskA] ∧
    (poolAfter rtOk [JsFile.obj taskA] 1 (some throwingCallback) [0]).total = 1 ∧
    ¬ ((poolAfter rtOk [JsFile.obj taskA] 1 (some throwingCallback) [0]).completed +
        (poolAfter rtOk [JsFile.obj taskA] 1 (some throwingCallback) [0]).failed.length ≤
       (poolAfter rtOk [JsFile.obj taskA] 1 (some throwingCallback) [0]).total) := by
  refine ⟨rfl, rfl, rfl, ?_⟩
  decide

/-- C6. With an `onProgress` callback and at least one worker, when the batch
over the task objects `ts` returns, the `onProgress` calls made are, up to
order, exactly the positions of `ts` whose pipeline succeeded, once each, each
with the file at that position (none for a position whose pipeline failed), and
their number is the returned `completed`. -/
theorem downloadParallel_progress_once_per_success (rt : Runtime) (ts : List DownloadTask)
    (concurrency : Int) (f : ProgressCallback) (sched : List Nat) (r : BatchResult)
    (hC : 1 ≤ concurrency)
    (hret : downloadParallel rt (ts.map JsFile.obj) concurrency (some f) sched = some r) :
    List.Perm
      ((poolAfter rt (ts.map JsFile.obj) concurrency (some f) sched).progress.map ProgressCall.call)
      ((positioned 0 ts).filter (resolved rt)) ∧
    (poolAfter rt (ts.map JsFile.obj) concurrency (some f) sched).progress.length = r.completed := by
  have hfin : (poolAfter rt (ts.map JsFile.obj) concurrency (some f) sched).allFinished = true := by
    rw [← downloadParallel_isSome, hret]; rfl
  obtain ⟨hcomp, _, hprog⟩ := batch_outcomes rt ts concurrency (some f) sched hC hfin
  have hr : r.completed = (poolAfter rt (ts.map JsFile.obj) concurrency (some f) sched).completed := by
    unfold downloadParallel at hret
    simp only [hfin, if_true, Option.some.injEq] at hret
    rw [← hret]
  refine ⟨hprog rfl, ?_⟩
  rw [hr, hcomp, ← (hprog rfl).length_eq, List.length_map]

theorem downloadParallel_progress_once_per_success_witness :
    (1 : Int) ≤ 2 ∧
    downloadParallel rtMixed ([taskA, taskB, taskA].map JsFile.obj) 2 (some quietCallback) [1, 0, 0]
      = some { completed := 2, total := 3, failed := [taskB] } ∧
    List.Perm
      ((poolAfter rtMixed ([taskA, taskB, taskA].map JsFile.obj) 2 (some quietCallback)
        [1, 0, 0]).progress.map ProgressCall.call)
      ((positioned 0 [taskA, taskB, taskA]).filter (resolved rtMixed)) ∧
    (poolAfter rtMixed ([taskA, taskB, taskA].map JsFile.obj) 2 (some quietCallback)
        [1, 0, 0]).progress.length = 2 :=
  ⟨by decide, rfl,
   downloadParallel_progress_once_per_success rtMixed [taskA, taskB, taskA] 2 quietCallback
     [1, 0, 0] { completed := 2, total := 3, failed := [taskB] } (by decide) rfl⟩

/-- C7. In every state of a batch over the task objects `ts`, the `onProgress`
calls made so far report `completed = 1, 2, 3, ...` in this order (the i-th
call reports i, so the values never decrease), each reports
`total = ts.length`, and each reported `completed` is at most `total`. -/
theorem downloadParallel_progress_numbering (rt : Runtime) (ts : List DownloadTask)
    (concurrency : Int) (cb : Option ProgressCallback) (sched : List Nat) :
    (poolAfter rt (ts.map JsFile.obj) concurrency cb sched).progress.map ProgressCall.completed =
      List.range' 1 (poolAfter rt (ts.map JsFile.obj) concurrency cb sched).progress.length ∧
    List.Pairwise (fun a b => a.completed ≤ b.completed)
      (poolAfter rt (ts.map JsFile.obj) concurrency cb sched).progress ∧
    ∀ e ∈ (poolAfter rt (ts.map JsFile.obj) concurrency cb sched).progress,
      e.total = ts.length ∧ e.completed ≤ e.total := by
  obtain ⟨rest, settled, h⟩ := inv_poolAfter rt ts concurrency cb sched
  generalize poolAfter rt (ts.map JsFile.obj) concurrency cb sched = s at h
  have hnum := h.accounts.numbering
  have hc : s.progress.map ProgressCall.completed = List.range' 1 s.progress.length := by
    have := congrArg (List.map Prod.fst) hnum
    simpa [List.map_map, Function.comp_def] using this
  have ht : s.progress.map ProgressCall.total = List.replicate s.progress.length s.total := by
    have := congrArg (List.map Prod.snd) hnum
    simp only [List.map_map, Function.comp_def] at this
    rw [this]
    simp [List.eq_replicate_iff]
  have hbound : s.progress.length ≤ ts.length := by
    have h1 : s.progress.length ≤ s.completed := by
      cases hcb : cb with
      | none => simp [h.accounts.progress_none hcb]
      | some f =>
        have := congrArg List.length (h.accounts.progress_some (by simp [hcb]))
        rw [List.length_map] at this
        rw [this, h.accounts.completed_eq]
    have h2 : s.completed ≤ settled.length := by
      rw [h.accounts.completed_eq]; exact List.length_filter_le _ _
    have h3 : settled.length ≤ s.calls.length := by
      have := h.calls_perm.length_eq
      simp only [List.length_append] at this
      omega
    have h4 : s.calls.length ≤ ts.length := by
      have := congrArg List.length h.calls_eq
      rw [positioned_length, List.length_append] at this
      omega
    omega
  refine ⟨hc, ?_, ?_⟩
  · have hp : List.Pairwise (fun a b => a ≤ b) (s.progress.map ProgressCall.completed) := by
      rw [hc]
      exact (List.pairwise_lt_range' 1 _).imp (fun hab => Nat.le_of_lt hab)
    exact (List.pairwise_map.1 hp)
  · intro e he
    have hte : e.total = s.total := by
      have hm : e.total ∈ s.progress.map ProgressCall.total := List.mem_map.2 ⟨e, he, rfl⟩
      rw [ht] at hm
      exact (List.mem_replicate.1 hm).2
    have hce : e.completed ≤ s.progress.length := by
      have hm : e.completed ∈ s.progress.map ProgressCall.completed := List.mem_map.2 ⟨e, he, rfl⟩
      rw [hc, List.mem_range'_1] at hm
      omega
    rw [hte, h.total_eq]
    exact ⟨rfl, by omega⟩

/-! ## The retry loops -/

theorem timeline_append (l1 l2 : List Effect) :
    timeline (l1 ++ l2) = timeline l1 ++ timeline l2 := by
  induction l1 with
  | nil => rfl
  | cons e es ih => cases e <;> simp [timeline, ih]

/-- An iteration whose `try` block fails before the last attempt: the loop
sleeps and goes on with the next attempt. -/
theorem retryLoop_fail_step (u : Util) (w : World) (url filePath : String)
    (expectedSha1 : Option String) (r : Nat) (e : JsError)
    (hfail : attemptOutcome w expectedSha1 (u.maxRetries - r) = .error e)
    (hne : u.maxRetries - r ≠ u.maxRetries) :
    (retryLoop u w url filePath expectedSha1 (r + 1)).result =
      (retryLoop u w url filePath expectedSha1 r).result ∧
    timeline (retryLoop u w url filePath expectedSha1 (r + 1)).trace =
      Tick.attempt :: Tick.sleep (u.retryDelay * (u.maxRetries - r)) ::
        timeline (retryLoop u w url filePath expectedSha1 r).trace := by
  unfold attemptOutcome at hfail
  rw [retryLoop]
  cases hd : w.download (u.maxRetries - r) with
  | error e1 =>
    simp [retryCatch, hne, timeline_append, timeline]
  | ok x =>
    rw [hd] at hfail
    cases ht : truthy expectedSha1 with
    | false => simp [ht] at hfail
    | true =>
      simp only [ht, if_true] at hfail ⊢
      cases hh : w.sha1Downloaded (u.maxRetries - r) with
      | ok hash => simp [hh] at hfail
      | error e2 => simp [retryCatch, hne, timeline_append, timeline]

/-- The last iteration, when its `try` block fails: the error is rethrown. -/
theorem retryLoop_fail_last (u : Util) (w : World) (url filePath : String)
    (expectedSha1 : Option String) (r : Nat) (e : JsError)
    (hfail : attemptOutcome w expectedSha1 (u.maxRetries - r) = .error e)
    (hlast : u.maxRetries - r = u.maxRetries) :
    (retryLoop u w url filePath expectedSha1 (r + 1)).result = .error e ∧
    timeline (retryLoop u w url filePath expectedSha1 (r + 1)).trace = [Tick.attempt] := by
  unfold attemptOutcome at hfail
  rw [retryLoop]
  cases hd : w.download (u.maxRetries - r) with
  | error e1 =>
    rw [hd] at hfail
    simp only [Except.error.injEq] at hfail
    simp [retryCatch, hlast, timeline_append, timeline, hfail]
  | ok x =>
    rw [hd] at hfail
    cases ht : truthy expectedSha1 with
    | false => simp [ht] at hfail
    | true =>
      simp only [ht, if_true] at hfail ⊢
      cases hh : w.sha1Downloaded (u.maxRetries - r) with
      | ok hash => simp [hh] at hfail
      | error e2 =>
        rw [hh] at hfail
        simp only [Except.error.injEq] at hfail
        simp [retryCatch, hlast, timeline_append, timeline, hfail]

/-- An iteration whose `try` block succeeds: the function returns `true`. -/
theorem retryLoop_success (u : Util) (w : World) (url filePath : String)
    (expectedSha1 : Option String) (r : Nat)
    (hok : attemptOutcome w expectedSha1 (u.maxRetries - r) = .ok ()) :
    (retryLoop u w url filePath expectedSha1 (r + 1)).result = .ok (.value true) ∧
    timeline (retryLoop u w url filePath expectedSha1 (r + 1)).trace = [Tick.attempt] := by
  unfold attemptOutcome at hok
  rw [retryLoop]
  cases hd : w.download (u.maxRetries - r) with
  | error e1 => simp [hd] at hok
  | ok x =>
    rw [hd] at hok
    cases ht : truthy expectedSha1 with
    | false => simp [timeline]
    | true =>
      simp only [ht, if_true] at hok ⊢
      cases hh : w.sha1Downloaded (u.maxRetries - r) with
      | error e2 => simp [hh] at hok
      | ok hash =>
        simp only
        split <;> simp [timeline]

/-- The loop with `r + d + 1` iterations left, when its first `d` attempts fail
and the next one, attempt `maxRetries - r`, succeeds. -/
theorem retryLoop_first_success (u : Util) (w : World) (url filePath : String)
    (expectedSha1 : Option String) (d r : Nat) (hr : r + d < u.maxRetries)
    (hfail : ∀ i, i < d →
      ∃ e, attemptOutcome w expectedSha1 (u.maxRetries - (r + d) + i) = .error e)
    (hok : attemptOutcome w expectedSha1 (u.maxRetries - r) = .ok ()) :
    (retryLoop u w url filePath expectedSha1 (r + d + 1)).result = .ok (.value true) ∧
    timeline (retryLoop u w url filePath expectedSha1 (r + d + 1)).trace =
      backoff u.retryDelay (u.maxRetries - (r + d)) (d + 1) := by
  induction d with
  | zero => exact retryLoop_success u w url filePath expectedSha1 r hok
  | succ d ih =>
    obtain ⟨e, he⟩ := hfail 0 (Nat.succ_pos d)
    have hne : u.maxRetries - (r + d + 1) ≠ u.maxRetries := by omega
    obtain ⟨h1, h2⟩ := retryLoop_fail_step u w url filePath expectedSha1 (r + d + 1) e
      (by simpa [Nat.add_assoc] using he) hne
    have hih := ih (by omega) (fun i hi => by
      obtain ⟨e2, he2⟩ := hfail (i + 1) (by omega)
      refine ⟨e2, ?_⟩
      have : u.maxRetries - (r + d) + i = u.maxRetries - (r + (d + 1)) + (i + 1) := by omega
      rw [this]; exact he2)
    have hstep : r + (d + 1) + 1 = (r + d + 1) + 1 := by omega
    rw [hstep, h1, h2, hih.1, hih.2]
    refine ⟨rfl, ?_⟩
    have ha : u.maxRetries - (r + d + 1) + 1 = u.maxRetries - (r + d) := by omega
    rw [show r + (d + 1) = r + d + 1 from rfl]
    simp only [backoff, ha]

/-- The loop with `n + 1` iterations left, when all of them fail: the error of
the last attempt is thrown. -/
theorem retryLoop_all_fail (u : Util) (w : World) (url filePath : String)
    (expectedSha1 : Option String) (e : Nat → JsError) (n : Nat) (hn : n < u.maxRetries)
    (hfail : ∀ k, u.maxRetries - n ≤ k → k ≤ u.maxRetries →
      attemptOutcome w expectedSha1 k = .error (e k)) :
    (retryLoop u w url filePath expectedSha1 (n + 1)).result = .error (e u.maxRetries) ∧
    timeline (retryLoop u w url filePath expectedSha1 (n + 1)).trace =
      backoff u.retryDelay (u.maxRetries - n) (n + 1) := by
  induction n with
  | zero =>
    have h0 := hfail u.maxRetries (by omega) (Nat.le_refl _)
    exact retryLoop_fail_last u w url filePath expectedSha1 0 _ (by simpa using h0) (by simp)
  | succ n ih =>
    have hne : u.maxRetries - (n + 1) ≠ u.maxRetries := by omega
    obtain ⟨h1, h2⟩ := retryLoop_fail_step u w url filePath expectedSha1 (n + 1) _
      (hfail (u.maxRetries - (n + 1)) (Nat.le_refl _) (by omega)) hne
    have hih := ih (by omega) (fun k hk1 hk2 => hfail k (by omega) hk2)
    rw [h1, h2, hih.1, hih.2]
    refine ⟨rfl, ?_⟩
    have ha : u.maxRetries - (n + 1) + 1 = u.maxRetries - n := by omega
    simp only [backoff, ha]

/-- The loop of `fetchJson` with `n + 1` iterations left, when all of them
fail: the error of the last attempt is thrown. -/
theorem fetchJsonLoop_all_fail {J : Type} (u : Util) (fetch : Nat → Except JsError J)
    (url : String) (e : Nat → JsError) (n : Nat) (hn : n < u.maxRetries)
    (hfail : ∀ k, u.maxRetries - n ≤ k → k ≤ u.maxRetries → fetch k = .error (e k)) :
    (fetchJsonLoop u fetch url (n + 1)).result = .error (e u.maxRetries) ∧
    timeline (fetchJsonLoop u fetch url (n + 1)).trace =
      backoff u.retryDelay (u.maxRetries - n) (n + 1) := by
  induction n with
  | zero =>
    have h0 := hfail u.maxRetries (by omega) (Nat.le_refl _)
    rw [fetchJsonLoop]
    simp [h0, timeline, backoff]
  | succ n ih =>
    have hne : u.maxRetries - (n + 1) ≠ u.maxRetries := by omega
    have h1 := hfail (u.maxRetries - (n + 1)) (Nat.le_refl _) (by omega)
    have hih := ih (by omega) (fun k hk1 hk2 => hfail k (by omega) hk2)
    have ha : u.maxRetries - (n + 1) + 1 = u.maxRetries - n := by omega
    rw [fetchJsonLoop]
    simp only [h1, hne, if_false, hih.1]
    refine ⟨trivial, ?_⟩
    simp [timeline_append, timeline, hih.2, backoff, ha]

/-- When the pre-check goes on to the loop, the call settles as the loop does,
with the attempts and sleeps of the loop. -/
theorem downloadFileWithRetry_proceed (u : Util) (w : World) (url filePath : String)
    (expectedSha1 : Option String) (hpre : preCheck w expectedSha1 = PreCheck.proceed) :
    (downloadFileWithRetry u w url filePath expectedSha1).result =
      (retryLoop u w url filePath expectedSha1 u.maxRetries).result ∧
    timeline (downloadFileWithRetry u w url filePath expectedSha1).trace =
      timeline (retryLoop u w url filePath expectedSha1 u.maxRetries).trace := by
  unfold preCheck at hpre
  unfold downloadFileWithRetry
  cases hc : (w.fileExists && truthy expectedSha1) with
  | false => simp
  | true =>
    simp only [hc, if_true] at hpre ⊢
    cases hs : w.sha1Existing with
    | error e => simp [hs] at hpre
    | ok hash =>
      simp only [hs] at hpre ⊢
      by_cases heq : some hash = expectedSha1
      · simp [heq] at hpre
      · simp [heq, timeline]

theorem backoff_count_attempt (retryDelay a j : Nat) :
    (backoff retryDelay a j).count Tick.attempt = j := by
  induction j using Nat.strongRecOn generalizing a with
  | _ j ih =>
    match j with
    | 0 => rfl
    | 1 => rfl
    | j + 2 =>
      have := ih (j + 1) (by omega) (a + 1)
      simp [backoff, List.count_cons, this]

theorem backoff_sleeps (retryDelay a j : Nat) :
    sleeps (backoff retryDelay a j) = (List.range' a (j - 1)).map (fun k => retryDelay * k) := by
  induction j using Nat.strongRecOn generalizing a with
  | _ j ih =>
    match j with
    | 0 => rfl
    | 1 => rfl
    | j + 2 =>
      have := ih (j + 1) (by omega) (a + 1)
      simp only [Nat.add_sub_cancel] at this
      simp [backoff, sleeps, this, List.range'_succ]

/-! ## The retry loops: claims -/

/-- C8 (counterexample). The destination exists but cannot be read, a digest is
expected, and every download would fail with HTTP 500: the skip path is not
taken, yet `downloadFileWithRetry` of the constructed instance raises the read
error at once, with no call of `downloadFile` and no sleep, instead of three
calls and two sleeps. -/
theorem downloadFileWithRetry_unreadable_makes_no_attempt :
    (∀ k, ∃ e, worldUnreadable.download k = .error e) ∧
    preCheck worldUnreadable (some "0a4d") ≠ PreCheck.skip ∧
    (downloadFileWithRetry util0 worldUnreadable "http://host/b.jar" "/game/b.jar"
        (some "0a4d")).trace = [Effect.calculateSha1 "/game/b.jar"] ∧
    (downloadFileWithRetry util0 worldUnreadable "http://host/b.jar" "/game/b.jar"
        (some "0a4d")).result = .error { message := "EISDIR" } ∧
    timeline (downloadFileWithRetry util0 worldUnreadable "http://host/b.jar" "/game/b.jar"
        (some "0a4d")).trace ≠
      [Tick.attempt, Tick.sleep 1000, Tick.attempt, Tick.sleep 2000, Tick.attempt] := by
  refine ⟨fun k => ⟨_, rfl⟩, by decide, rfl, rfl, by decide⟩

/-- C8 (amended). With the constructed instance (`maxRetries = 3`,
`retryDelay = 1000`), if every `downloadFile` attempt fails and the pre-check
goes on to the retry loop (it neither skips nor fails to read an existing
file), then `downloadFileWithRetry` calls `downloadFile` exactly 3 times, sleeps
exactly twice, 1000 ms after the first failure and 2000 ms after the second,
does not sleep after the third, and raises the error of the third attempt. -/
theorem downloadFileWithRetry_exhausts_three_attempts (basename : String → String) (w : World)
    (url filePath : String) (expectedSha1 : Option String) (e : Nat → JsError)
    (hfail : ∀ k, w.download k = .error (e k))
    (hpre : preCheck w expectedSha1 = PreCheck.proceed) :
    timeline (downloadFileWithRetry (Util.new basename) w url filePath expectedSha1).trace =
      [Tick.attempt, Tick.sleep 1000, Tick.attempt, Tick.sleep 2000, Tick.attempt] ∧
    (downloadFileWithRetry (Util.new basename) w url filePath expectedSha1).trace.count
      (Effect.downloadFile url filePath) = 3 ∧
    (downloadFileWithRetry (Util.new basename) w url filePath expectedSha1).result =
      .error (e 3) := by
  obtain ⟨h1, h2⟩ := downloadFileWithRetry_proceed (Util.new basename) w url filePath
    expectedSha1 hpre
  have hall := retryLoop_all_fail (Util.new basename) w url filePath expectedSha1 e 2
    (by simp [Util.new]) (fun k _ _ => by simp [attemptOutcome, hfail])
  have hm : (Util.new basename).maxRetries = 2 + 1 := rfl
  refine ⟨?_, ?_, ?_⟩
  · rw [h2, hm, hall.2]
    simp [Util.new, backoff]
  · unfold preCheck at hpre
    unfold downloadFileWithRetry
    have hloop : ((retryLoop (Util.new basename) w url filePath expectedSha1
        (Util.new basename).maxRetries).trace).count (Effect.downloadFile url filePath) = 3 := by
      simp [Util.new, retryLoop, retryCatch, hfail, List.count_cons, List.count_append]
    cases hc : (w.fileExists && truthy expectedSha1) with
    | false => simpa using hloop
    | true =>
      simp only [hc, if_true] at hpre ⊢
      cases hs : w.sha1Existing with
      | error e => simp [hs] at hpre
      | ok hash =>
        simp only [hs] at hpre ⊢
        by_cases heq : some hash = expectedSha1
        · simp [heq] at hpre
        · simpa [heq, List.count_cons] using hloop
  · rw [h1, hm, hall.1]
    rfl

theorem downloadFileWithRetry_exhausts_three_attempts_witness :
    (∀ k, world500.download k = .error { message := "HTTP 500, attempt " ++ toString k }) ∧
    preCheck world500 (some "0a4d") = PreCheck.proceed ∧
    timeline (downloadFileWithRetry (Util.new id) world500 "http://host/b.jar" "/game/b.jar"
        (some "0a4d")).trace =
      [Tick.attempt, Tick.sleep 1000, Tick.attempt, Tick.sleep 2000, Tick.attempt] ∧
    (downloadFileWithRetry (Util.new id) world500 "http://host/b.jar" "/game/b.jar"
        (some "0a4d")).trace.count (Effect.downloadFile "http://host/b.jar" "/game/b.jar") = 3 ∧
    (downloadFileWithRetry (Util.new id) world500 "http://host/b.jar" "/game/b.jar"
        (some "0a4d")).result = .error { message := "HTTP 500, attempt " ++ toString 3 } :=
  ⟨fun _ => rfl, rfl,
   downloadFileWithRetry_exhausts_three_attempts id world500 "http://host/b.jar" "/game/b.jar"
     (some "0a4d") (fun k => { message := "HTTP 500, attempt " ++ toString k }) (fun _ => rfl) rfl⟩

/-- C9. If attempts `1 .. j - 1` of the retry loop fail and attempt `j`
succeeds, with `1 ≤ j ≤ maxRetries`, the loop of `downloadFileWithRetry`
returns `true`, and its attempts and sleeps are: attempt 1, sleep
`retryDelay * 1`, attempt 2, sleep `retryDelay * 2`, ..., attempt `j`, and
nothing after it; so exactly `j` attempts and the sleeps `retryDelay * k` for
`k = 1 .. j - 1`. -/
theorem retryLoop_stops_at_first_success (u : Util) (w : World) (url filePath : String)
    (expectedSha1 : Option String) (j : Nat) (hj1 : 1 ≤ j) (hjm : j ≤ u.maxRetries)
    (hfail : ∀ k, 1 ≤ k → k < j → ∃ e, attemptOutcome w expectedSha1 k = .error e)
    (hok : attemptOutcome w expectedSha1 j = .ok ()) :
    (retryLoop u w url filePath expectedSha1 u.maxRetries).result = .ok (.value true) ∧
    timeline (retryLoop u w url filePath expectedSha1 u.maxRetries).trace =
      backoff u.retryDelay 1 j ∧
    (timeline (retryLoop u w url filePath expectedSha1 u.maxRetries).trace).count Tick.attempt
      = j ∧
    sleeps (timeline (retryLoop u w url filePath expectedSha1 u.maxRetries).trace) =
      (List.range' 1 (j - 1)).map (fun k => u.retryDelay * k) := by
  have e1 : u.maxRetries - j + (j - 1) + 1 = u.maxRetries := by omega
  have e2 : u.maxRetries - (u.maxRetries - j + (j - 1)) = 1 := by omega
  have e3 : u.maxRetries - (u.maxRetries - j) = j := by omega
  have e4 : j - 1 + 1 = j := by omega
  have key := retryLoop_first_success u w url filePath expectedSha1 (j - 1) (u.maxRetries - j)
    (by omega)
    (fun i hi => by
      rw [e2]
      exact hfail (1 + i) (by omega) (by omega))
    (by rw [e3]; exact hok)
  rw [e1, e2, e4] at key
  refine ⟨key.1, key.2, ?_, ?_⟩
  · rw [key.2, backoff_count_attempt]
  · rw [key.2, backoff_sleeps]

theorem retryLoop_stops_at_first_success_witness :
    1 ≤ 2 ∧ 2 ≤ util0.maxRetries ∧
    attemptOutcome worldSecond (some "0a4d") 1 = .error { message := "ETIMEDOUT" } ∧
    attemptOutcome worldSecond (some "0a4d") 2 = .ok () ∧
    (retryLoop util0 worldSecond "http://host/b.jar" "/game/b.jar" (some "0a4d")
        util0.maxRetries).result = .ok (.value true) ∧
    timeline (retryLoop util0 worldSecond "http://host/b.jar" "/game/b.jar" (some "0a4d")
        util0.maxRetries).trace = backoff util0.retryDelay 1 2 ∧
    (timeline (retryLoop util0 worldSecond "http://host/b.jar" "/game/b.jar" (some "0a4d")
        util0.maxRetries).trace).count Tick.attempt = 2 ∧
    sleeps (timeline (retryLoop util0 worldSecond "http://host/b.jar" "/game/b.jar" (some "0a4d")
        util0.maxRetries).trace) = (List.range' 1 (2 - 1)).map (fun k => util0.retryDelay * k) :=
  ⟨by decide, by decide, rfl, rfl,
   retryLoop_stops_at_first_success util0 worldSecond "http://host/b.jar" "/game/b.jar"
     (some "0a4d") 2 (by decide) (by decide)
     (fun k h1 h2 => ⟨{ message := "ETIMEDOUT" }, by
       have hk : k = 1 := by omega
       subst hk
       rfl⟩)
     rfl⟩

/-- When the pre-check does not go on to the loop, the call makes no attempt. -/
theorem downloadFileWithRetry_no_attempt (u : Util) (w : World) (url filePath : String)
    (expectedSha1 : Option String) (hpre : preCheck w expectedSha1 ≠ PreCheck.proceed) :
    timeline (downloadFileWithRetry u w url filePath expectedSha1).trace = [] := by
  unfold preCheck at hpre
  unfold downloadFileWithRetry
  cases hc : (w.fileExists && truthy expectedSha1) with
  | false => simp [hc] at hpre
  | true =>
    simp only [hc, if_true] at hpre ⊢
    cases hs : w.sha1Existing with
    | error e => simp [timeline]
    | ok hash =>
      simp only [hs] at hpre ⊢
      by_cases heq : some hash = expectedSha1
      · simp [heq, timeline]
      · simp [heq] at hpre

/-- C10. With `maxRetries ≥ 1`: when `downloadFileWithRetry` makes its
`maxRetries` attempts and all of them fail, attempt `k` with error `e k`, the
call raises exactly `e maxRetries`, the error of the last attempt; and when all
`maxRetries` attempts of `fetchJson` fail, attempt `k` with error `e2 k`, it
raises exactly `e2 maxRetries`.  The errors of the earlier attempts do not
appear in the result. -/
theorem retry_raises_final_error {J : Type} (u : Util) (w : World) (url filePath : String)
    (expectedSha1 : Option String) (fetch : Nat → Except JsError J) (e e2 : Nat → JsError)
    (hm : 1 ≤ u.maxRetries) :
    ((timeline (downloadFileWithRetry u w url filePath expectedSha1).trace).count Tick.attempt
        = u.maxRetries →
      (∀ k, 1 ≤ k → k ≤ u.maxRetries → attemptOutcome w expectedSha1 k = .error (e k)) →
      (downloadFileWithRetry u w url filePath expectedSha1).result = .error (e u.maxRetries)) ∧
    ((∀ k, 1 ≤ k → k ≤ u.maxRetries → fetch k = .error (e2 k)) →
      (fetchJson u fetch url).result = .error (e2 u.maxRetries)) := by
  have h1 : u.maxRetries - 1 + 1 = u.maxRetries := by omega
  constructor
  · intro hmade hfail
    have hpre : preCheck w expectedSha1 = PreCheck.proceed := by
      by_contra hc
      rw [downloadFileWithRetry_no_attempt u w url filePath expectedSha1 hc] at hmade
      simp at hmade
      omega
    have hall := retryLoop_all_fail u w url filePath expectedSha1 e (u.maxRetries - 1)
      (by omega) (fun k hk1 hk2 => hfail k (by omega) hk2)
    rw [h1] at hall
    rw [(downloadFileWithRetry_proceed u w url filePath expectedSha1 hpre).1, hall.1]
  · intro hfail
    have hall := fetchJsonLoop_all_fail u fetch url e2 (u.maxRetries - 1)
      (by omega) (fun k hk1 hk2 => hfail k (by omega) hk2)
    rw [h1] at hall
    unfold fetchJson
    rw [hall.1]

theorem retry_raises_final_error_witness :
    1 ≤ util0.maxRetries ∧
    (timeline (downloadFileWithRetry util0 world500 "http://host/b.jar" "/game/b.jar"
        (some "0a4d")).trace).count Tick.attempt = util0.maxRetries ∧
    (downloadFileWithRetry util0 world500 "http://host/b.jar" "/game/b.jar" (some "0a4d")).result
      = .error { message := "HTTP 500, attempt " ++ toString 3 } ∧
    (fetchJson util0 fetch500 "http://host/version.json").result
      = .error { message := "HTTP 500, attempt " ++ toString 3 } :=
  ⟨by decide, by decide,
   (retry_raises_final_error util0 world500 "http://host/b.jar" "/game/b.jar" (some "0a4d")
      fetch500 (fun k => { message := "HTTP 500, attempt " ++ toString k })
      (fun k => { message := "HTTP 500, attempt " ++ toString k }) (by decide)).1 (by decide)
      (fun _ _ _ => rfl),
   (retry_raises_final_error util0 world500 "http://host/b.jar" "/game/b.jar" (some "0a4d")
      fetch500 (fun k => { message := "HTTP 500, attempt " ++ toString k })
      (fun k => { message := "HTTP 500, attempt " ++ toString k }) (by decide)).2
      (fun _ _ _ => rfl)⟩

/-! ## The single-item pipeline: claims -/

theorem downloadFileWithRetry_skip (u : Util) (w : World) (url filePath : String)
    (expectedSha1 : Option String) (hpre : preCheck w expectedSha1 = PreCheck.skip) :
    (downloadFileWithRetry u w url filePath expectedSha1).result = .ok (.value true) ∧
    (downloadFileWithRetry u w url filePath expectedSha1).trace =
      [Effect.calculateSha1 filePath] := by
  unfold preCheck at hpre
  unfold downloadFileWithRetry
  cases hc : (w.fileExists && truthy expectedSha1) with
  | false => simp [hc] at hpre
  | true =>
    simp only [hc, if_true] at hpre ⊢
    cases hs : w.sha1Existing with
    | error e => simp [hs] at hpre
    | ok hash =>
      simp only [hs] at hpre ⊢
      by_cases heq : some hash = expectedSha1
      · simp [heq]
      · simp [heq] at hpre

theorem downloadFileWithRetry_raise (u : Util) (w : World) (url filePath : String)
    (expectedSha1 : Option String) (e : JsError)
    (hpre : preCheck w expectedSha1 = PreCheck.raise e) :
    (downloadFileWithRetry u w url filePath expectedSha1).result = .error e ∧
    (downloadFileWithRetry u w url filePath expectedSha1).trace =
      [Effect.calculateSha1 filePath] := by
  unfold preCheck at hpre
  unfold downloadFileWithRetry
  cases hc : (w.fileExists && truthy expectedSha1) with
  | false => simp [hc] at hpre
  | true =>
    simp only [hc, if_true] at hpre ⊢
    cases hs : w.sha1Existing with
    | error e2 =>
      simp only [hs, PreCheck.raise.injEq] at hpre
      simp [hpre]
    | ok hash =>
      simp only [hs] at hpre ⊢
      by_cases heq : some hash = expectedSha1
      · simp [heq] at hpre
      · simp [heq] at hpre

/-- C11. If a file exists at `filePath`, `expectedSha1` is set (truthy) and the
digest of the existing file equals it, `downloadFileWithRetry` returns `true`;
the only call it makes is the one `calculateSha1(filePath)` that reads the
file: no call of `downloadFile` (no network access, nothing written), no
sleep, no warning. -/
theorem downloadFileWithRetry_idempotent_skip (u : Util) (w : World) (url filePath : String)
    (expectedSha1 : Option String) (hash : String)
    (hexists : w.fileExists = true) (hset : truthy expectedSha1 = true)
    (hhash : w.sha1Existing = .ok hash) (heq : some hash = expectedSha1) :
    (downloadFileWithRetry u w url filePath expectedSha1).result = .ok (.value true) ∧
    (downloadFileWithRetry u w url filePath expectedSha1).trace =
      [Effect.calculateSha1 filePath] ∧
    (downloadFileWithRetry u w url filePath expectedSha1).trace.count
      (Effect.downloadFile url filePath) = 0 ∧
    timeline (downloadFileWithRetry u w url filePath expectedSha1).trace = [] := by
  have hpre : preCheck w expectedSha1 = PreCheck.skip := by
    simp [preCheck, hexists, hset, hhash, heq]
  obtain ⟨h1, h2⟩ := downloadFileWithRetry_skip u w url filePath expectedSha1 hpre
  refine ⟨h1, h2, ?_, ?_⟩
  · rw [h2]; simp
  · rw [h2]; rfl

theorem downloadFileWithRetry_idempotent_skip_witness :
    worldInstalled.fileExists = true ∧ truthy (some "0a4d") = true ∧
    worldInstalled.sha1Existing = .ok "0a4d" ∧
    (downloadFileWithRetry util0 worldInstalled "http://host/b.jar" "/game/b.jar"
      (some "0a4d")).result = .ok (.value true) ∧
    (downloadFileWithRetry util0 worldInstalled "http://host/b.jar" "/game/b.jar"
      (some "0a4d")).trace = [Effect.calculateSha1 "/game/b.jar"] ∧
    (downloadFileWithRetry util0 worldInstalled "http://host/b.jar" "/game/b.jar"
      (some "0a4d")).trace.count (Effect.downloadFile "http://host/b.jar" "/game/b.jar") = 0 ∧
    timeline (downloadFileWithRetry util0 worldInstalled "http://host/b.jar" "/game/b.jar"
      (some "0a4d")).trace = [] :=
  ⟨rfl, rfl, rfl,
   downloadFileWithRetry_idempotent_skip util0 worldInstalled "http://host/b.jar" "/game/b.jar"
     (some "0a4d") "0a4d" rfl rfl rfl rfl⟩

/-- The two kinds of warning lines differ. -/
theorem failed_line_ne_mismatch_line (a b : String) :
    "Download failed (" ++ a ≠ "SHA1 mismatch: " ++ b := by
  intro h
  have h2 := congrArg String.data h
  simp only [String.data_append] at h2
  simp only [List.cons_append, List.cons.injEq] at h2
  exact absurd h2.1 (by decide)

/-- An iteration whose `try` block fails before the last attempt: its trace is
that of the attempt, without a mismatch warning, followed by the trace of the
rest of the loop. -/
theorem retryLoop_fail_step_trace (u : Util) (w : World) (url filePath : String)
    (expectedSha1 : Option String) (r : Nat) (e : JsError)
    (hfail : attemptOutcome w expectedSha1 (u.maxRetries - r) = .error e)
    (hne : u.maxRetries - r ≠ u.maxRetries) :
    ∃ pre, (retryLoop u w url filePath expectedSha1 (r + 1)).trace =
        pre ++ (retryLoop u w url filePath expectedSha1 r).trace ∧
      ∀ m, pre.count (Effect.warn ("SHA1 mismatch: " ++ m)) = 0 := by
  have hw : ∀ m : String, ¬ ("Download failed (" ++ toString (u.maxRetries - r) ++ "/" ++
      toString u.maxRetries ++ "): " ++ url = "SHA1 mismatch: " ++ m) := by
    intro m
    simp only [String.append_assoc]
    exact failed_line_ne_mismatch_line _ _
  unfold attemptOutcome at hfail
  rw [retryLoop]
  cases hd : w.download (u.maxRetries - r) with
  | error e1 =>
    refine ⟨[Effect.downloadFile url filePath,
      Effect.warn ("Download failed (" ++ toString (u.maxRetries - r) ++ "/" ++
        toString u.maxRetries ++ "): " ++ url),
      Effect.sleep (u.retryDelay * (u.maxRetries - r))], ?_, ?_⟩
    · simp [retryCatch, hne]
    · intro m
      simp [List.count_cons, hw m]
  | ok x =>
    rw [hd] at hfail
    cases ht : truthy expectedSha1 with
    | false => simp [ht] at hfail
    | true =>
      simp only [ht, if_true] at hfail ⊢
      cases hh : w.sha1Downloaded (u.maxRetries - r) with
      | ok hash => simp [hh] at hfail
      | error e2 =>
        refine ⟨[Effect.downloadFile url filePath, Effect.calculateSha1 filePath,
          Effect.warn ("Download failed (" ++ toString (u.maxRetries - r) ++ "/" ++
            toString u.maxRetries ++ "): " ++ url),
          Effect.sleep (u.retryDelay * (u.maxRetries - r))], ?_, ?_⟩
        · simp [retryCatch, hne]
        · intro m
          simp [List.count_cons, hw m]

/-- An iteration whose download succeeds and whose digest is computed: the
function returns `true`, with a mismatch warning exactly when the digest is
not the expected one. -/
theorem retryLoop_digest_step (u : Util) (w : World) (url filePath : String)
    (expectedSha1 : Option String) (r : Nat) (hash : String)
    (hset : truthy expectedSha1 = true)
    (hdl : w.download (u.maxRetries - r) = .ok ())
    (hsha : w.sha1Downloaded (u.maxRetries - r) = .ok hash) :
    (retryLoop u w url filePath expectedSha1 (r + 1)).trace =
      [Effect.downloadFile url filePath, Effect.calculateSha1 filePath] ++
        (if some hash = expectedSha1 then []
         else [Effect.warn ("SHA1 mismatch: " ++ u.basename filePath)]) := by
  rw [retryLoop]
  simp only [hdl, hset, if_true, hsha]
  split <;> simp

theorem retryLoop_mismatch_count (u : Util) (w : World) (url filePath : String)
    (expectedSha1 : Option String) (hash : String) (d r : Nat) (hr : r + d < u.maxRetries)
    (hset : truthy expectedSha1 = true)
    (hfail : ∀ i, i < d →
      ∃ e, attemptOutcome w expectedSha1 (u.maxRetries - (r + d) + i) = .error e)
    (hdl : w.download (u.maxRetries - r) = .ok ())
    (hsha : w.sha1Downloaded (u.maxRetries - r) = .ok hash) :
    (retryLoop u w url filePath expectedSha1 (r + d + 1)).trace.count
        (Effect.warn ("SHA1 mismatch: " ++ u.basename filePath)) =
      if some hash = expectedSha1 then 0 else 1 := by
  induction d with
  | zero =>
    rw [Nat.add_zero, retryLoop_digest_step u w url filePath expectedSha1 r hash hset hdl hsha]
    split <;> simp [List.count_cons]
  | succ d ih =>
    obtain ⟨e, he⟩ := hfail 0 (Nat.succ_pos d)
    have hne : u.maxRetries - (r + d + 1) ≠ u.maxRetries := by omega
    obtain ⟨pre, h1, h2⟩ := retryLoop_fail_step_trace u w url filePath expectedSha1 (r + d + 1) e
      (by simpa [Nat.add_assoc] using he) hne
    have hih := ih (by omega) (fun i hi => by
      obtain ⟨e2, he2⟩ := hfail (i + 1) (by omega)
      refine ⟨e2, ?_⟩
      have : u.maxRetries - (r + d) + i = u.maxRetries - (r + (d + 1)) + (i + 1) := by omega
      rw [this]; exact he2)
    have hstep : r + (d + 1) + 1 = (r + d + 1) + 1 := by omega
    rw [hstep, h1, List.count_append, h2, hih, Nat.zero_add]

/-- When the pre-check goes on to the loop, the trace of the call is the trace
of the loop, after the digest call of the pre-check if it made one. -/
theorem downloadFileWithRetry_proceed_trace (u : Util) (w : World) (url filePath : String)
    (expectedSha1 : Option String) (hpre : preCheck w expectedSha1 = PreCheck.proceed) :
    (downloadFileWithRetry u w url filePath expectedSha1).trace =
      (retryLoop u w url filePath expectedSha1 u.maxRetries).trace ∨
    (downloadFileWithRetry u w url filePath expectedSha1).trace =
      Effect.calculateSha1 filePath ::
        (retryLoop u w url filePath expectedSha1 u.maxRetries).trace := by
  unfold preCheck at hpre
  unfold downloadFileWithRetry
  cases hc : (w.fileExists && truthy expectedSha1) with
  | false => simp
  | true =>
    simp only [hc, if_true] at hpre ⊢
    cases hs : w.sha1Existing with
    | error e => simp [hs] at hpre
    | ok hash =>
      simp only [hs] at hpre ⊢
      by_cases heq : some hash = expectedSha1
      · simp [heq] at hpre
      · simp [heq]

/-- C12. In a call of `downloadFileWithRetry` that reaches its loop with a
truthy `expectedSha1`: if attempts `1 .. j - 1` fail, and in attempt `j`
`downloadFile` succeeds and the digest of the downloaded file is computed
(`hash`), then the call returns `true` after attempt `j`, whether or not `hash`
is the expected digest, and makes no further attempt; a mismatch produces
exactly one `SHA1 mismatch` warning, a match none. -/
theorem downloadFileWithRetry_mismatch_is_not_failure (u : Util) (w : World)
    (url filePath : String) (expectedSha1 : Option String) (hash : String) (j : Nat)
    (hj1 : 1 ≤ j) (hjm : j ≤ u.maxRetries)
    (hpre : preCheck w expectedSha1 = PreCheck.proceed)
    (hset : truthy expectedSha1 = true)
    (hfail : ∀ k, 1 ≤ k → k < j → ∃ e, attemptOutcome w expectedSha1 k = .error e)
    (hdl : w.download j = .ok ())
    (hsha : w.sha1Downloaded j = .ok hash) :
    (downloadFileWithRetry u w url filePath expectedSha1).result = .ok (.value true) ∧
    timeline (downloadFileWithRetry u w url filePath expectedSha1).trace =
      backoff u.retryDelay 1 j ∧
    (downloadFileWithRetry u w url filePath expectedSha1).trace.count
        (Effect.warn ("SHA1 mismatch: " ++ u.basename filePath)) =
      if some hash = expectedSha1 then 0 else 1 := by
  have hok : attemptOutcome w expectedSha1 j = .ok () := by
    simp [attemptOutcome, hdl, hset, hsha]
  obtain ⟨h1, h2, _, _⟩ :=
    retryLoop_stops_at_first_success u w url filePath expectedSha1 j hj1 hjm hfail hok
  obtain ⟨p1, p2⟩ := downloadFileWithRetry_proceed u w url filePath expectedSha1 hpre
  refine ⟨p1.trans h1, p2.trans h2, ?_⟩
  have e1 : u.maxRetries - j + (j - 1) + 1 = u.maxRetries := by omega
  have e2 : u.maxRetries - (u.maxRetries - j + (j - 1)) = 1 := by omega
  have e3 : u.maxRetries - (u.maxRetries - j) = j := by omega
  have key := retryLoop_mismatch_count u w url filePath expectedSha1 hash (j - 1)
    (u.maxRetries - j) (by omega) hset
    (fun i hi => by
      rw [e2]
      exact hfail (1 + i) (by omega) (by omega))
    (by rw [e3]; exact hdl) (by rw [e3]; exact hsha)
  rw [e1] at key
  rcases downloadFileWithRetry_proceed_trace u w url filePath expectedSha1 hpre with ht | ht
  · rw [ht, key]
  · rw [ht, List.count_cons, key]
    simp

theorem downloadFileWithRetry_mismatch_is_not_failure_witness :
    1 ≤ 2 ∧ 2 ≤ util0.maxRetries ∧
    preCheck worldMismatch (some "0a4d") = PreCheck.proceed ∧
    truthy (some "0a4d") = true ∧
    worldMismatch.download 2 = .ok () ∧ worldMismatch.sha1Downloaded 2 = .ok "ffff" ∧
    (downloadFileWithRetry util0 worldMismatch "http://host/b.jar" "/game/b.jar"
      (some "0a4d")).result = .ok (.value true) ∧
    timeline (downloadFileWithRetry util0 worldMismatch "http://host/b.jar" "/game/b.jar"
      (some "0a4d")).trace = backoff util0.retryDelay 1 2 ∧
    (downloadFileWithRetry util0 worldMismatch "http://host/b.jar" "/game/b.jar"
      (some "0a4d")).trace.count
        (Effect.warn ("SHA1 mismatch: " ++ util0.basename "/game/b.jar")) =
      if some "ffff" = some "0a4d" then 0 else 1 :=
  ⟨by decide, by decide, rfl, rfl, rfl, rfl,
   downloadFileWithRetry_mismatch_is_not_failure util0 worldMismatch "http://host/b.jar"
     "/game/b.jar" (some "0a4d") "ffff" 2 (by decide) (by decide) rfl rfl
     (fun k h1 h2 => ⟨{ message := "ETIMEDOUT" }, by
       have hk : k = 1 := by omega
       subst hk
       rfl⟩)
     rfl rfl⟩

/-- C13 (counterexample). The destination exists but cannot be read and a
digest is expected: `downloadFileWithRetry` of the constructed instance raises
the read error without having made a single download attempt, so not "only
after the retry budget is exhausted". -/
theorem downloadFileWithRetry_raises_before_any_attempt :
    (downloadFileWithRetry util0 worldUnreadable "http://host/b.jar" "/game/b.jar"
        (some "0a4d")).result = .error { message := "EISDIR" } ∧
    (timeline (downloadFileWithRetry util0 worldUnreadable "http://host/b.jar" "/game/b.jar"
        (some "0a4d")).trace).count Tick.attempt = 0 ∧
    (timeline (downloadFileWithRetry util0 worldUnreadable "http://host/b.jar" "/game/b.jar"
        (some "0a4d")).trace).count Tick.attempt ≠ util0.maxRetries := by
  refine ⟨rfl, rfl, by decide⟩

/-- C13 (amended). For every world, url, path and optional digest,
`downloadFileWithRetry` of the constructed instance either returns `true`, or
raises an error; it never returns `false` or `undefined`.  When it raises,
either the pre-check could not compute the digest of the existing file, and the
error is that one, raised before any attempt; or the call made its 3 attempts,
all 3 failed, and the error is that of the third. -/
theorem downloadFileWithRetry_true_or_raise (basename : String → String) (w : World)
    (url filePath : String) (expectedSha1 : Option String) :
    (downloadFileWithRetry (Util.new basename) w url filePath expectedSha1).result
        = .ok (.value true) ∨
    ∃ e, (downloadFileWithRetry (Util.new basename) w url filePath expectedSha1).result
        = .error e ∧
      ((preCheck w expectedSha1 = PreCheck.raise e ∧
        timeline (downloadFileWithRetry (Util.new basename) w url filePath expectedSha1).trace
          = []) ∨
       (preCheck w expectedSha1 = PreCheck.proceed ∧
        timeline (downloadFileWithRetry (Util.new basename) w url filePath expectedSha1).trace
          = [Tick.attempt, Tick.sleep 1000, Tick.attempt, Tick.sleep 2000, Tick.attempt] ∧
        (∀ k, 1 ≤ k → k ≤ 3 → ∃ ek, attemptOutcome w expectedSha1 k = .error ek) ∧
        attemptOutcome w expectedSha1 3 = .error e)) := by
  have hm : (Util.new basename).maxRetries = 3 := rfl
  cases hpre : preCheck w expectedSha1 with
  | skip =>
    left
    exact (downloadFileWithRetry_skip _ w url filePath expectedSha1 hpre).1
  | raise e =>
    right
    obtain ⟨h1, h2⟩ := downloadFileWithRetry_raise (Util.new basename) w url filePath
      expectedSha1 e hpre
    exact ⟨e, h1, Or.inl ⟨rfl, by rw [h2]; rfl⟩⟩
  | proceed =>
    obtain ⟨p1, p2⟩ := downloadFileWithRetry_proceed (Util.new basename) w url filePath
      expectedSha1 hpre
    have first : ∀ j, 1 ≤ j → j ≤ 3 →
        (∀ k, 1 ≤ k → k < j → ∃ e, attemptOutcome w expectedSha1 k = .error e) →
        attemptOutcome w expectedSha1 j = .ok () →
        (downloadFileWithRetry (Util.new basename) w url filePath expectedSha1).result
          = .ok (.value true) := by
      intro j hj1 hj3 hfail hok
      rw [p1]
      exact (retryLoop_stops_at_first_success (Util.new basename) w url filePath expectedSha1 j
        hj1 (by rw [hm]; exact hj3) hfail hok).1
    cases h1 : attemptOutcome w expectedSha1 1 with
    | ok x => exact Or.inl (first 1 (by omega) (by omega) (fun k a b => by omega) h1)
    | error e1 =>
      cases h2 : attemptOutcome w expectedSha1 2 with
      | ok x =>
        refine Or.inl (first 2 (by omega) (by omega) (fun k a b => ?_) h2)
        have hk : k = 1 := by omega
        subst hk
        exact ⟨e1, h1⟩
      | error e2 =>
        cases h3 : attemptOutcome w expectedSha1 3 with
        | ok x =>
          refine Or.inl (first 3 (by omega) (by omega) (fun k a b => ?_) h3)
          have hk : k = 1 ∨ k = 2 := by omega
          rcases hk with hk | hk
          · subst hk; exact ⟨e1, h1⟩
          · subst hk; exact ⟨e2, h2⟩
        | error e3 =>
          right
          have hall := retryLoop_all_fail (Util.new basename) w url filePath expectedSha1
            (fun k => if k = 1 then e1 else if k = 2 then e2 else e3) 2 (by rw [hm]; omega)
            (fun k hk1 hk2 => by
              rw [hm] at hk1 hk2
              have hk : k = 1 ∨ k = 2 ∨ k = 3 := by omega
              rcases hk with hk | hk | hk
              · subst hk; simpa using h1
              · subst hk; simpa using h2
              · subst hk; simpa using h3)
          have hm2 : (Util.new basename).maxRetries = 2 + 1 := rfl
          refine ⟨e3, ?_, Or.inr ⟨rfl, ?_, ?_, rfl⟩⟩
          · rw [p1, hm2, hall.1]
            simp [Util.new]
          · rw [p2, hm2, hall.2]
            simp [Util.new, backoff]
          · intro k hk1 hk2
            have hk : k = 1 ∨ k = 2 ∨ k = 3 := by omega
            rcases hk with hk | hk | hk
            · subst hk; exact ⟨e1, h1⟩
            · subst hk; exact ⟨e2, h2⟩
            · subst hk; exact ⟨e3, h3⟩

/-! ## The retry loops against the specification's `withRetry` -/

theorem retryLoop_refines_withRetryFrom (u : Util) (w : World) (url filePath : String)
    (expectedSha1 : Option String) (n : Nat) (hn : n ≤ u.maxRetries) :
    (retryLoop u w url filePath expectedSha1 n).result =
      asSettlement (fun _ => true)
        (withRetryFrom (attemptOutcome w expectedSha1) u.retryDelay (u.maxRetries - n + 1) n).1 ∧
    timeline (retryLoop u w url filePath expectedSha1 n).trace =
      (withRetryFrom (attemptOutcome w expectedSha1) u.retryDelay (u.maxRetries - n + 1) n).2 := by
  induction n with
  | zero => simp [retryLoop, withRetryFrom, asSettlement, timeline]
  | succ r ih =>
    have ha : u.maxRetries - (r + 1) + 1 = u.maxRetries - r := by omega
    rw [ha]
    cases hout : attemptOutcome w expectedSha1 (u.maxRetries - r) with
    | ok x =>
      obtain ⟨h1, h2⟩ := retryLoop_success u w url filePath expectedSha1 r hout
      rw [h1, h2]
      cases r with
      | zero =>
        rw [Nat.sub_zero] at hout
        simp [withRetryFrom, hout, asSettlement]
      | succ r2 => simp [withRetryFrom, hout, asSettlement]
    | error e =>
      cases r with
      | zero =>
        obtain ⟨h1, h2⟩ := retryLoop_fail_last u w url filePath expectedSha1 0 e hout (by simp)
        rw [h1, h2]
        rw [Nat.sub_zero] at hout
        simp [withRetryFrom, hout, asSettlement]
      | succ r2 =>
        have hne : u.maxRetries - (r2 + 1) ≠ u.maxRetries := by omega
        obtain ⟨h1, h2⟩ :=
          retryLoop_fail_step u w url filePath expectedSha1 (r2 + 1) e hout hne
        have hih := ih (by omega)
        have hb : u.maxRetries - (r2 + 1) + 1 = u.maxRetries - (r2 + 1) + 1 := rfl
        rw [h1, h2, hih.1, hih.2]
        simp [withRetryFrom, hout]

theorem fetchJsonLoop_refines_withRetryFrom {J : Type} (u : Util)
    (fetch : Nat → Except JsError J) (url : String) (n : Nat) (hn : n ≤ u.maxRetries) :
    (fetchJsonLoop u fetch url n).result =
      asSettlement id (withRetryFrom fetch u.retryDelay (u.maxRetries - n + 1) n).1 ∧
    timeline (fetchJsonLoop u fetch url n).trace =
      (withRetryFrom fetch u.retryDelay (u.maxRetries - n + 1) n).2 := by
  induction n with
  | zero => simp [fetchJsonLoop, withRetryFrom, asSettlement, timeline]
  | succ r ih =>
    have ha : u.maxRetries - (r + 1) + 1 = u.maxRetries - r := by omega
    rw [ha, fetchJsonLoop]
    cases hout : fetch (u.maxRetries - r) with
    | ok x =>
      cases r with
      | zero =>
        simp only [Nat.sub_zero] at hout ⊢
        simp [withRetryFrom, hout, asSettlement, timeline]
      | succ r2 => simp [withRetryFrom, hout, asSettlement, timeline]
    | error e =>
      cases r with
      | zero =>
        simp only [Nat.sub_zero] at hout ⊢
        simp [withRetryFrom, hout, asSettlement, timeline]
      | succ r2 =>
        have hne : u.maxRetries - (r2 + 1) ≠ u.maxRetries := by omega
        have hih := ih (by omega)
        simp only [hne, if_false]
        simp [withRetryFrom, hout, hih.1, hih.2, timeline_append, timeline]

/-- C18. For every instance (in particular the constructed one, `maxRetries =
3`, `retryDelay = 1000`) and every sequence of attempt outcomes, the retry loop
of `downloadFileWithRetry` and `fetchJson` make the attempts and the sleeps of
the specification's `withRetry(operation, maxRetries, retryDelay)`, where the
operation is the `try` block of an attempt (download, then digest check),
respectively `_fetchJson`; and they settle as it does: `true`, respectively the
fetched document, when it gives the operation's result, the same error when it
propagates the last failure. -/
theorem retry_loops_refine_withRetry {J : Type} (u : Util) (w : World) (url filePath : String)
    (expectedSha1 : Option String) (fetch : Nat → Except JsError J) :
    (retryLoop u w url filePath expectedSha1 u.maxRetries).result =
      asSettlement (fun _ => true)
        (withRetry (attemptOutcome w expectedSha1) u.maxRetries u.retryDelay).1 ∧
    timeline (retryLoop u w url filePath expectedSha1 u.maxRetries).trace =
      (withRetry (attemptOutcome w expectedSha1) u.maxRetries u.retryDelay).2 ∧
    (fetchJson u fetch url).result =
      asSettlement id (withRetry fetch u.maxRetries u.retryDelay).1 ∧
    timeline (fetchJson u fetch url).trace = (withRetry fetch u.maxRetries u.retryDelay).2 := by
  have h1 := retryLoop_refines_withRetryFrom u w url filePath expectedSha1 u.maxRetries
    (Nat.le_refl _)
  have h2 := fetchJsonLoop_refines_withRetryFrom u fetch url u.maxRetries (Nat.le_refl _)
  simp only [Nat.sub_self, Nat.zero_add] at h1 h2
  exact ⟨h1.1, h1.2, h2.1, h2.2⟩

/-! ## Order and bounds of the pool -/

theorem workerNext_calls (s : Pool) :
    (workerNext s).1.calls = s.calls ++ inflight [(workerNext s).2] ∧
    (workerNext s).1.failed = s.failed ∧ (workerNext s).1.progress = s.progress ∧
    (workerNext s).1.workers = s.workers := by
  unfold workerNext
  split <;> simp [inflight]

/-- What the worker's `try`/`catch` appends: to `failed` nothing or the file,
to the `onProgress` calls nothing or the call for the file. -/
theorem afterAwait_appends (u : Util) (cb : Option ProgressCallback) (c : PipelineCall)
    (r : Except JsError (JsResult Bool)) (s : Pool) :
    ∃ fl pl, (afterAwait u cb c.pos c.file r s).failed = s.failed ++ fl ∧
      List.Sublist fl [c.file] ∧
      (afterAwait u cb c.pos c.file r s).progress.map ProgressCall.call =
        s.progress.map ProgressCall.call ++ pl ∧
      List.Sublist pl [c] := by
  unfold afterAwait
  cases r with
  | error e =>
    exact ⟨[c.file], [], by simp [workerCatch], List.Sublist.refl _, by simp [workerCatch],
      List.nil_sublist _⟩
  | ok v =>
    cases cb with
    | none => exact ⟨[], [], by simp, List.nil_sublist _, by simp, List.nil_sublist _⟩
    | some f =>
      simp only
      cases f (s.completed + 1) s.total c.file with
      | ok x =>
        exact ⟨[], [c], by simp, List.nil_sublist _, by simp [ProgressCall.call],
          List.Sublist.refl _⟩
      | error e =>
        exact ⟨[c.file], [c], by simp [workerCatch], List.Sublist.refl _,
          by simp [workerCatch, ProgressCall.call], List.Sublist.refl _⟩

theorem sequential_spawn {s : Pool} {settled : List PipelineCall} (h : Sequential s settled) :
    Sequential (spawn s) settled := by
  obtain ⟨h1, h2, h3, h4⟩ := workerNext_calls s
  constructor
  · simp only [spawn, h1, h4, inflight_append, h.calls_eq, List.append_assoc]
  · simpa [spawn, h2] using h.failed_sub
  · simpa [spawn, h3] using h.progress_sub

theorem sequential_resume (rt : Runtime) (cb : Option ProgressCallback) (i : Nat) {s : Pool}
    {settled : List PipelineCall} (h : Sequential s settled) (hone : s.workers.length ≤ 1) :
    ∃ settled2, Sequential (resume rt cb i s) settled2 := by
  unfold resume
  cases hw : s.workers[i]? with
  | none => exact ⟨settled, h⟩
  | some w =>
    cases w with
    | finished => exact ⟨settled, h⟩
    | awaiting pos file =>
      obtain ⟨l1, l2, hl, _, hset⟩ := get?_split s.workers i _ hw
      have hl1 : l1 = [] := by
        rw [hl] at hone
        simp only [List.length_append, List.length_cons] at hone
        exact List.eq_nil_of_length_eq_zero (by omega)
      have hl2 : l2 = [] := by
        rw [hl] at hone
        simp only [List.length_append, List.length_cons] at hone
        exact List.eq_nil_of_length_eq_zero (by omega)
      subst hl1 hl2
      obtain ⟨hfq, hfc, hfw, hft⟩ :=
        afterAwait_frame rt.util cb pos file (pipeline rt pos file) s
      obtain ⟨fl, pl, a1, a2, a3, a4⟩ :=
        afterAwait_appends rt.util cb { pos := pos, file := file } (pipeline rt pos file) s
      simp only at a1 a3
      simp only
      generalize afterAwait rt.util cb pos file (pipeline rt pos file) s = s1
        at hfq hfc hfw hft a1 a3 ⊢
      obtain ⟨h1, h2, h3, h4⟩ := workerNext_calls s1
      refine ⟨settled ++ [{ pos := pos, file := file }], ?_⟩
      have hc := h.calls_eq
      rw [hl] at hc
      simp only [List.nil_append, inflight_awaiting] at hc
      constructor
      · simp only [h1, h4, hfc, hfw, hset, List.nil_append, hc]
        have : inflight ([] : List Worker) = [] := rfl
        rw [this]
      · simp only [h2, a1, List.map_append]
        exact List.Sublist.append h.failed_sub (by simpa using a2)
      · simp only [h3, a3]
        exact List.Sublist.append h.progress_sub a4

theorem sequential_poolAfter (rt : Runtime) (files : List JsFile) (cb : Option ProgressCallback)
    (sched : List Nat) : ∃ settled, Sequential (poolAfter rt files 1 cb sched) settled := by
  have hstart : ∃ settled, Sequential (spawnAll (1 : Int).toNat (Pool.init files)) settled ∧
      (spawnAll (1 : Int).toNat (Pool.init files)).workers.length ≤ 1 := by
    refine ⟨[], ?_, ?_⟩
    · have h0 : Sequential (Pool.init files) [] := by
        constructor <;> simp [Pool.init, inflight]
      exact sequential_spawn h0
    · rw [spawnAll_workers_length]
      simp [Pool.init]
  unfold poolAfter
  generalize spawnAll (1 : Int).toNat (Pool.init files) = s0 at hstart
  induction sched generalizing s0 with
  | nil => exact ⟨hstart.choose, hstart.choose_spec.1⟩
  | cons j js ih =>
    obtain ⟨settled, hs, hlen⟩ := hstart
    simp only [List.foldl_cons]
    apply ih
    rcases settle_cases rt cb j s0 with ⟨_, he⟩ | ⟨_, i, _, _, _, he⟩
    · rw [he]; exact ⟨settled, hs, hlen⟩
    · rw [he]
      obtain ⟨settled2, hs2⟩ := sequential_resume rt cb i hs hlen
      exact ⟨settled2, hs2, by rw [resume_workers_length]; exact hlen⟩

/-- C19. In every state of a batch over the task objects `ts` the files popped
so far, in the order they were popped, are an initial segment of `ts` (the
queue is first in, first out); when the batch returns, with at least one
worker, they are `ts` itself.  With concurrency 1, in every state, the files
passed to `onProgress` and the list `failed` are sublists of `ts`: they follow
the input order. -/
theorem downloadParallel_pops_in_input_order (rt : Runtime) (ts : List DownloadTask)
    (concurrency : Int) (cb : Option ProgressCallback) (sched : List Nat) :
    List.IsPrefix
      ((poolAfter rt (ts.map JsFile.obj) concurrency cb sched).calls.map PipelineCall.file) ts ∧
    (1 ≤ concurrency →
      (downloadParallel rt (ts.map JsFile.obj) concurrency cb sched).isSome = true →
      (poolAfter rt (ts.map JsFile.obj) concurrency cb sched).calls.map PipelineCall.file = ts) ∧
    List.Sublist ((poolAfter rt (ts.map JsFile.obj) 1 cb sched).progress.map ProgressCall.file) ts ∧
    List.Sublist (poolAfter rt (ts.map JsFile.obj) 1 cb sched).failed ts := by
  obtain ⟨rest, settled, h⟩ := inv_poolAfter rt ts concurrency cb sched
  have hpre : ∀ (s : Pool) (rest settled : List PipelineCall), Inv rt cb ts s rest settled →
      List.IsPrefix (s.calls.map PipelineCall.file) ts := by
    intro s rest settled hs
    refine ⟨rest.map PipelineCall.file, ?_⟩
    rw [← List.map_append, hs.calls_eq, positioned_map_file]
  refine ⟨hpre _ _ _ h, ?_, ?_⟩
  · intro hC hret
    have hfin : (poolAfter rt (ts.map JsFile.obj) concurrency cb sched).allFinished = true := by
      rw [← downloadParallel_isSome]; exact hret
    have hne : 0 < (poolAfter rt (ts.map JsFile.obj) concurrency cb sched).workers.length := by
      rw [poolAfter_workers_length]; omega
    rw [(inv_final h hfin hne).1, positioned_map_file]
  · obtain ⟨rest1, settled1, h1⟩ := inv_poolAfter rt ts 1 cb sched
    obtain ⟨settled2, hseq⟩ := sequential_poolAfter rt (ts.map JsFile.obj) cb sched
    have hsub : List.Sublist (settled2.map PipelineCall.file) ts := by
      have hp := hpre _ _ _ h1
      rw [hseq.calls_eq, List.map_append] at hp
      exact ((List.prefix_append _ _).trans hp).sublist
    constructor
    · have := (hseq.progress_sub.map PipelineCall.file).trans hsub
      simpa [List.map_map, Function.comp_def, ProgressCall.call] using this
    · exact hseq.failed_sub.trans hsub

theorem inflight_length_le (ws : List Worker) : (inflight ws).length ≤ ws.length := by
  unfold inflight
  exact List.length_filterMap_le _ _

theorem inv_inflight_le {rt : Runtime} {cb : Option ProgressCallback} {ts : List DownloadTask}
    {s : Pool} {rest settled : List PipelineCall} (h : Inv rt cb ts s rest settled) :
    (inflight s.workers).length ≤ ts.length := by
  have h1 := h.calls_perm.length_eq
  have h2 := congrArg List.length h.calls_eq
  rw [positioned_length] at h2
  simp only [List.length_append] at h1 h2
  omega

/-- C20. In every state of a batch over the task objects `ts` with concurrency
`C ≥ 1`, during the loop that starts the workers (after `k ≤ C` of them have
been started) and after any settlements, the number of tasks popped whose
pipeline has not settled is at most `min(C, ts.length)`. -/
theorem downloadParallel_inflight_bounded (rt : Runtime) (ts : List DownloadTask)
    (concurrency : Int) (cb : Option ProgressCallback) (hC : 1 ≤ concurrency) :
    (∀ k, k ≤ concurrency.toNat →
      ((inflight (spawnAll k (Pool.init (ts.map JsFile.obj))).workers).length : Int) ≤
        min concurrency (ts.length : Int)) ∧
    (∀ sched : List Nat,
      ((inflight (poolAfter rt (ts.map JsFile.obj) concurrency cb sched).workers).length : Int) ≤
        min concurrency (ts.length : Int)) := by
  constructor
  · intro k hk
    obtain ⟨rest, settled, h⟩ := inv_spawnAll k (inv_init rt cb ts)
    have h1 := inv_inflight_le h
    have h2 := inflight_length_le (spawnAll k (Pool.init (ts.map JsFile.obj))).workers
    rw [spawnAll_workers_length] at h2
    have h0 : (Pool.init (ts.map JsFile.obj)).workers.length = 0 := rfl
    rw [h0] at h2
    refine le_min ?_ ?_ <;> omega
  · intro sched
    obtain ⟨rest, settled, h⟩ := inv_poolAfter rt ts concurrency cb sched
    have h1 := inv_inflight_le h
    have h2 := inflight_length_le (poolAfter rt (ts.map JsFile.obj) concurrency cb sched).workers
    rw [poolAfter_workers_length] at h2
    refine le_min ?_ ?_ <;> omega

theorem downloadParallel_inflight_bounded_witness :
    (1 : Int) ≤ 2 ∧
    ((inflight (spawnAll 1 (Pool.init ([taskA, taskB, taskA].map JsFile.obj))).workers).length
        : Int) ≤ min 2 (([taskA, taskB, taskA].length : Nat) : Int) ∧
    ((inflight (poolAfter rtMixed ([taskA, taskB, taskA].map JsFile.obj) 2 none [1]).workers).length
        : Int) ≤ min 2 (([taskA, taskB, taskA].length : Nat) : Int) :=
  ⟨by decide,
   (downloadParallel_inflight_bounded rtMixed [taskA, taskB, taskA] 2 none (by decide)).1 1
     (by decide),
   (downloadParallel_inflight_bounded rtMixed [taskA, taskB, taskA] 2 none (by decide)).2 [1]⟩

/-! ## `downloadFile` and `_fetchJson`: claims -/

theorem followsRedirect_iff (r : Response) :
    followsRedirect r = true ↔
      r.statusCode ∈ [301, 302, 307, 308] ∧ truthy r.location = true := by
  simp [followsRedirect]

/-- A hop that is a followed redirect: `downloadFile` goes on with the location,
for the same path. -/
theorem downloadFile_redirect_step (disk : Disk) (h : Hop) (hops : List Hop)
    (url filePath : String) (r : Response)
    (hdir : h.ensureDir = .ok ()) (hreply : h.reply = .response r)
    (hred : followsRedirect r = true) :
    downloadFile disk (h :: hops) url filePath =
      (downloadFile disk hops h.target filePath).map (fun d =>
        { d with trace := [NetEffect.ensureDir filePath,
                           NetEffect.get (_getRequestModule url) url] ++ d.trace }) := by
  rw [downloadFile]
  simp only [hdir, hreply, hred, if_true, Hop.target]
  cases downloadFile disk hops (r.location.getD "") filePath <;> rfl

theorem fetchJson_redirect_step {J : Type} (parse : String → Except String J) (r : Response)
    (replies : List Reply) (url : String) (hred : followsRedirect r = true) :
    _fetchJson parse (Reply.response r :: replies) url =
      (_fetchJson parse replies (r.location.getD "")).map (fun d =>
        { d with trace := [NetEffect.get (_getRequestModule url) url] ++ d.trace }) := by
  rw [_fetchJson]
  simp only [hred, if_true]
  cases _fetchJson parse replies (r.location.getD "") <;> rfl

/-- Over the reactions its calls end with: when `n` calls in a row end with a
status in {301, 302, 307, 308} and a truthy `Location`, and the next one with a
response 200 with body `body` (the directory can be made, the write stream
finishes), `downloadFile(url, filePath)` makes `n + 1` calls of `client.get`,
for `url` and then for each location in turn, resolves, and leaves the disk as
it was but for `filePath`, which holds exactly `body`. -/
theorem downloadFile_follows_redirect_chain (disk : Disk) (chain more : List Hop) (last : Hop)
    (url filePath : String) (loc : Option String) (body : String)
    (hchain : ∀ h ∈ chain, h.ensureDir = .ok () ∧
      ∃ r, h.reply = .response r ∧ r.statusCode ∈ [301, 302, 307, 308] ∧
        truthy r.location = true)
    (hdir : last.ensureDir = .ok ())
    (hreply : last.reply = .response { statusCode := 200, location := loc, body := body })
    (hwrite : last.write = .ok ()) :
    ∃ d, downloadFile disk (chain ++ last :: more) url filePath = some d ∧
      d.result = .ok () ∧
      d.disk = Function.update disk filePath (some body) ∧
      d.disk filePath = some body ∧
      gets d.trace = url :: chain.map Hop.target ∧
      (gets d.trace).length = chain.length + 1 := by
  induction chain generalizing url with
  | nil =>
    refine ⟨{ result := .ok (), disk := Function.update disk filePath (some body),
              trace := [NetEffect.ensureDir filePath, NetEffect.get (_getRequestModule url) url,
                        NetEffect.createWriteStream filePath] }, ?_, rfl, rfl, ?_, ?_, ?_⟩
    · rw [List.nil_append, downloadFile]
      simp [hdir, hreply, hwrite, followsRedirect]
    · simp
    · simp [gets]
    · simp [gets]
  | cons h chain ih =>
    obtain ⟨hd, r, hr, hs, hl⟩ := hchain h (List.mem_cons_self _ _)
    have hred : followsRedirect r = true := (followsRedirect_iff r).2 ⟨hs, hl⟩
    obtain ⟨d, h1, h2, h3, h4, h5, h6⟩ :=
      ih h.target (fun x hx => hchain x (List.mem_cons_of_mem _ hx))
    refine ⟨{ d with trace := [NetEffect.ensureDir filePath,
        NetEffect.get (_getRequestModule url) url] ++ d.trace }, ?_, h2, h3, h4, ?_, ?_⟩
    · rw [List.cons_append, downloadFile_redirect_step disk h _ url filePath r hd hr hred, h1]
      rfl
    · simp [gets, h5]
    · simp [gets, h5]

/-- C15. After any chain of followed redirects, a response whose status is not
200 and which is not itself a followed redirect (a redirect status without a
truthy `Location`, a 204, a 404, a 500, ...) makes `downloadFile` reject with
the error whose message is exactly `HTTP <status> for <url>`, `<url>` being the
URL of the request that got this response (the last location of the chain, or
the URL passed in when there was no redirect); no write stream is opened and
the disk is unchanged.  `_fetchJson` rejects with the same error. -/
theorem downloadFile_rejects_other_status {J : Type} (parse : String → Except String J)
    (disk : Disk) (chain more : List Hop) (moreReplies : List Reply) (last : Hop)
    (url filePath : String) (r : Response)
    (hchain : ∀ h ∈ chain, h.ensureDir = .ok () ∧
      ∃ r, h.reply = .response r ∧ r.statusCode ∈ [301, 302, 307, 308] ∧
        truthy r.location = true)
    (hdir : last.ensureDir = .ok ())
    (hreply : last.reply = .response r)
    (hstatus : r.statusCode ≠ 200)
    (hnot : ¬ (r.statusCode ∈ [301, 302, 307, 308] ∧ truthy r.location = true)) :
    (∃ d, downloadFile disk (chain ++ last :: more) url filePath = some d ∧
      d.result = .error { message := "HTTP " ++ toString r.statusCode ++ " for " ++
        (chain.map Hop.target).getLastD url } ∧
      d.disk = disk ∧
      ∀ p, NetEffect.createWriteStream p ∉ d.trace) ∧
    (∃ f, _fetchJson parse (chain.map Hop.reply ++ Reply.response r :: moreReplies) url = some f ∧
      f.result = .error { message := "HTTP " ++ toString r.statusCode ++ " for " ++
        (chain.map Hop.target).getLastD url }) := by
  have hred : followsRedirect r = false := by
    cases hf : followsRedirect r with
    | false => rfl
    | true => exact absurd ((followsRedirect_iff r).1 hf) hnot
  induction chain generalizing url with
  | nil =>
    constructor
    · refine ⟨{ result := .error (httpError r.statusCode url), disk := disk,
                trace := [NetEffect.ensureDir filePath,
                          NetEffect.get (_getRequestModule url) url] }, ?_, rfl, rfl, ?_⟩
      · rw [List.nil_append, downloadFile]
        simp [hdir, hreply, hred, hstatus]
      · intro p hp
        simp at hp
    · refine ⟨{ result := .error (httpError r.statusCode url),
                trace := [NetEffect.get (_getRequestModule url) url] }, ?_, rfl⟩
      rw [List.map_nil, List.nil_append, _fetchJson]
      simp [hred, hstatus]
  | cons h chain ih =>
    obtain ⟨hd, r1, hr, hs, hl⟩ := hchain h (List.mem_cons_self _ _)
    have hred1 : followsRedirect r1 = true := (followsRedirect_iff r1).2 ⟨hs, hl⟩
    obtain ⟨⟨d, h1, h2, h3, h4⟩, ⟨f, g1, g2⟩⟩ :=
      ih h.target (fun x hx => hchain x (List.mem_cons_of_mem _ hx))
    have hlast : ((h :: chain).map Hop.target).getLastD url =
        (chain.map Hop.target).getLastD h.target := by
      rw [List.map_cons, List.getLastD_cons]
    rw [hlast]
    constructor
    · refine ⟨{ d with trace := [NetEffect.ensureDir filePath,
          NetEffect.get (_getRequestModule url) url] ++ d.trace }, ?_, h2, h3, ?_⟩
      · rw [List.cons_append, downloadFile_redirect_step disk h _ url filePath r1 hd hr hred1, h1]
        rfl
      · intro p hp
        simp only [List.cons_append, List.nil_append, List.mem_cons] at hp
        rcases hp with hp | hp | hp
        · cases hp
        · cases hp
        · exact h4 p hp
    · have ht : h.target = r1.location.getD "" := by simp [Hop.target, hr]
      refine ⟨{ f with trace := [NetEffect.get (_getRequestModule url) url] ++ f.trace }, ?_, g2⟩
      rw [List.map_cons, List.cons_append, hr,
        fetchJson_redirect_step parse r1 _ url hred1, ← ht, g1]
      rfl

theorem downloadFile_rejects_other_status_witness :
    (∀ h ∈ [hopRedirect 301 "http://mirror/a.jar"], h.ensureDir = .ok () ∧
      ∃ r, h.reply = .response r ∧ r.statusCode ∈ [301, 302, 307, 308] ∧
        truthy r.location = true) ∧
    (hopStatus 302 "").ensureDir = .ok () ∧
    (302 : Nat) ≠ 200 ∧
    ¬ ((302 : Nat) ∈ [301, 302, 307, 308] ∧ truthy (none : Option String) = true) ∧
    (∃ d, downloadFile emptyDisk ([hopRedirect 301 "http://mirror/a.jar"] ++ hopStatus 302 "" :: [])
        "http://host/a.jar" "/game/a.jar" = some d ∧
      d.result = .error { message := "HTTP " ++ toString 302 ++ " for " ++
        ([hopRedirect 301 "http://mirror/a.jar"].map Hop.target).getLastD "http://host/a.jar" } ∧
      d.disk = emptyDisk ∧
      ∀ p, NetEffect.createWriteStream p ∉ d.trace) ∧
    (∃ f, _fetchJson (fun _ => (Except.ok 0 : Except String Nat))
        ([hopRedirect 301 "http://mirror/a.jar"].map Hop.reply ++
          Reply.response { statusCode := 302, location := none, body := "" } :: [])
        "http://host/a.jar" = some f ∧
      f.result = .error { message := "HTTP " ++ toString 302 ++ " for " ++
        ([hopRedirect 301 "http://mirror/a.jar"].map Hop.target).getLastD "http://host/a.jar" }) :=
  ⟨fun h hh => by
      have hh2 : h = hopRedirect 301 "http://mirror/a.jar" := by simpa using hh
      subst hh2
      exact ⟨rfl, _, rfl, by decide, rfl⟩,
   rfl, by decide, by decide,
   downloadFile_rejects_other_status (fun _ => (Except.ok 0 : Except String Nat)) emptyDisk
     [hopRedirect 301 "http://mirror/a.jar"] [] [] (hopStatus 302 "")
     "http://host/a.jar" "/game/a.jar" { statusCode := 302, location := none, body := "" }
     (fun h hh => by
      have hh2 : h = hopRedirect 301 "http://mirror/a.jar" := by simpa using hh
      subst hh2
      exact ⟨rfl, _, rfl, by decide, rfl⟩)
     rfl rfl (by decide) (by decide)⟩

theorem fetchJsonLoop_first_success {J : Type} (u : Util) (fetch : Nat → Except JsError J)
    (url : String) (data : J) (d r : Nat) (hr : r + d < u.maxRetries)
    (hfail : ∀ i, i < d → ∃ e, fetch (u.maxRetries - (r + d) + i) = .error e)
    (hok : fetch (u.maxRetries - r) = .ok data) :
    (fetchJsonLoop u fetch url (r + d + 1)).result = .ok (.value data) ∧
    timeline (fetchJsonLoop u fetch url (r + d + 1)).trace =
      backoff u.retryDelay (u.maxRetries - (r + d)) (d + 1) := by
  induction d with
  | zero =>
    rw [Nat.add_zero, fetchJsonLoop]
    simp [hok, timeline, backoff]
  | succ d ih =>
    obtain ⟨e, he⟩ := hfail 0 (Nat.succ_pos d)
    have hne : u.maxRetries - (r + d + 1) ≠ u.maxRetries := by omega
    have hih := ih (by omega) (fun i hi => by
      obtain ⟨e2, he2⟩ := hfail (i + 1) (by omega)
      refine ⟨e2, ?_⟩
      have : u.maxRetries - (r + d) + i = u.maxRetries - (r + (d + 1)) + (i + 1) := by omega
      rw [this]; exact he2)
    have hstep : r + (d + 1) + 1 = (r + d + 1) + 1 := by omega
    have he1 : fetch (u.maxRetries - (r + d + 1)) = .error e := by
      simpa [Nat.add_assoc] using he
    have ha : u.maxRetries - (r + d + 1) + 1 = u.maxRetries - (r + d) := by omega
    rw [hstep, fetchJsonLoop]
    simp only [he1, hne, if_false, hih.1]
    refine ⟨trivial, ?_⟩
    rw [show r + (d + 1) = r + d + 1 from rfl]
    simp [timeline_append, timeline, hih.2, backoff, ha]

/-- The message of a parse error is not the message of a status error. -/
theorem parse_line_ne_http_line (a b : String) : "JSON parse error: " ++ a ≠ "HTTP " ++ b := by
  intro h
  have h2 := congrArg String.data h
  simp only [String.data_append] at h2
  simp only [List.cons_append, List.cons.injEq] at h2
  exact absurd h2.1 (by decide)

/-- C16. A response 200 whose body `JSON.parse` rejects (with message `m`)
makes `_fetchJson` reject with the error `JSON parse error: m`, which is never
an `HTTP <status> for <url>` error.  `fetchJson` of the constructed instance
retries it like any failure: when every attempt gets such a response, it makes
exactly 3 attempts, with sleeps of 1000 and 2000 ms, and raises the parse error
of the third; and when attempts `1 .. j - 1` fail and attempt `j ≤ 3` gives a
document, it returns that document after `j` attempts.  Here `fetch k` is the
settlement of `_fetchJson` on the replies `replies k` of attempt `k`. -/
theorem fetchJson_retries_parse_errors {J : Type} (basename : String → String)
    (parse : String → Except String J) (url : String)
    (replies : Nat → List Reply) (fetch : Nat → Except JsError J)
    (hlink : ∀ k, (_fetchJson parse (replies k) url).map JsonFetch.result = some (fetch k)) :
    (∀ (loc : Option String) (body m : String) (more : List Reply), parse body = .error m →
      (_fetchJson parse
        (Reply.response { statusCode := 200, location := loc, body := body } :: more) url).map
          JsonFetch.result
        = some (.error { message := "JSON parse error: " ++ m })) ∧
    (∀ (m : String) (status : Nat) (u : String),
      ({ message := "JSON parse error: " ++ m } : JsError) ≠
        { message := "HTTP " ++ toString status ++ " for " ++ u }) ∧
    ((∀ k, ∃ loc body m more, replies k =
        Reply.response { statusCode := 200, location := loc, body := body } :: more ∧
        parse body = .error m) →
      ∃ m3, (fetchJson (Util.new basename) fetch url).result
          = .error { message := "JSON parse error: " ++ m3 } ∧
        fetch 3 = .error { message := "JSON parse error: " ++ m3 } ∧
        timeline (fetchJson (Util.new basename) fetch url).trace =
          [Tick.attempt, Tick.sleep 1000, Tick.attempt, Tick.sleep 2000, Tick.attempt]) ∧
    (∀ (j : Nat) (data : J), 1 ≤ j → j ≤ 3 →
      (∀ k, 1 ≤ k → k < j → ∃ e, fetch k = .error e) → fetch j = .ok data →
      (fetchJson (Util.new basename) fetch url).result = .ok (.value data) ∧
      timeline (fetchJson (Util.new basename) fetch url).trace = backoff 1000 1 j) := by
  have hparse : ∀ (loc : Option String) (body m : String) (more : List Reply),
      parse body = .error m →
      (_fetchJson parse
        (Reply.response { statusCode := 200, location := loc, body := body } :: more) url).map
          JsonFetch.result
        = some (.error { message := "JSON parse error: " ++ m }) := by
    intro loc body m more hm
    rw [_fetchJson]
    simp [followsRedirect, hm]
  have hm3 : (Util.new basename).maxRetries = 2 + 1 := rfl
  refine ⟨hparse, ?_, ?_, ?_⟩
  · intro m status u h
    have h2 := congrArg JsError.message h
    simp only [String.append_assoc] at h2
    exact parse_line_ne_http_line _ _ h2
  · intro hall
    have hk : ∀ k, ∃ m, fetch k = .error { message := "JSON parse error: " ++ m } := by
      intro k
      obtain ⟨loc, body, m, more, h1, h2⟩ := hall k
      refine ⟨m, ?_⟩
      have h3 := hlink k
      rw [h1, hparse loc body m more h2] at h3
      exact (Option.some.inj h3).symm
    have hloop := fetchJsonLoop_all_fail (Util.new basename) fetch url
      (fun k => { message := "JSON parse error: " ++ (hk k).choose }) 2 (by simp [Util.new])
      (fun k _ _ => (hk k).choose_spec)
    refine ⟨(hk 3).choose, ?_, (hk 3).choose_spec, ?_⟩
    · unfold fetchJson
      rw [hm3, hloop.1]
    · unfold fetchJson
      rw [hm3, hloop.2]
      simp [Util.new, backoff]
  · intro j data hj1 hj3 hfail hok
    have e1 : 3 - j + (j - 1) + 1 = 3 := by omega
    have e2 : 3 - (3 - j + (j - 1)) = 1 := by omega
    have e3 : 3 - (3 - j) = j := by omega
    have e4 : j - 1 + 1 = j := by omega
    have key := fetchJsonLoop_first_success (Util.new basename) fetch url data (j - 1) (3 - j)
      (by simp only [Util.new]; omega)
      (fun i hi => by
        simp only [Util.new]
        rw [e2]
        exact hfail (1 + i) (by omega) (by omega))
      (by simp only [Util.new]; rw [e3]; exact hok)
    simp only [Util.new] at key
    rw [e1, e2, e4] at key
    exact key

theorem fetchJson_retries_parse_errors_witness :
    (∀ k, (_fetchJson parseOne (repliesMalformed k) "http://host/version.json").map
        JsonFetch.result = some (fetchMalformed k)) ∧
    (∀ k, ∃ loc body m more, repliesMalformed k =
        Reply.response { statusCode := 200, location := loc, body := body } :: more ∧
        parseOne body = .error m) ∧
    ∃ m3, (fetchJson (Util.new id) fetchMalformed "http://host/version.json").result
        = .error { message := "JSON parse error: " ++ m3 } ∧
      fetchMalformed 3 = .error { message := "JSON parse error: " ++ m3 } ∧
      timeline (fetchJson (Util.new id) fetchMalformed "http://host/version.json").trace =
        [Tick.attempt, Tick.sleep 1000, Tick.attempt, Tick.sleep 2000, Tick.attempt] :=
  ⟨fun _ => rfl,
   fun _ => ⟨none, "<html>", "Unexpected token", [], rfl, rfl⟩,
   (fetchJson_retries_parse_errors id parseOne "http://host/version.json" repliesMalformed
      fetchMalformed (fun _ => rfl)).2.2.1
      (fun _ => ⟨none, "<html>", "Unexpected token", [], rfl, rfl⟩)⟩

/-! ## `calculateSha1`: claims -/

theorem absorb_append (h : Sha1Words) (buffer xs ys : List Nat) :
    absorb h buffer (xs ++ ys) = absorb (absorb h buffer xs).1 (absorb h buffer xs).2 ys := by
  induction xs generalizing h buffer with
  | nil => rfl
  | cons x xs ih =>
    simp only [List.cons_append, absorb]
    split
    · exact ih _ _
    · exact ih _ _

theorem update_update (hash : Hash) (xs ys : List Nat) :
    (hash.update xs).update ys = hash.update (xs ++ ys) := by
  simp [Hash.update, absorb_append, Nat.add_assoc]

theorem update_nil (hash : Hash) : hash.update [] = hash := by
  simp [Hash.update, absorb]

/-- Feeding the chunks one after the other is feeding their concatenation. -/
theorem foldl_update (hash : Hash) (chunks : List (List Nat)) :
    chunks.foldl Hash.update hash = hash.update chunks.flatten := by
  induction chunks generalizing hash with
  | nil => simp [update_nil]
  | cons c cs ih => simp [ih, update_update]

/-- The digest of the hash object fed with a whole message is the SHA-1 digest
of the message. -/
theorem digest_update (message : List Nat) :
    (createHash.update message).digest = sha1 message := by
  simp [Hash.digest, Hash.update, createHash, sha1, absorb_append]

theorem hex_length (bytes : List Nat) : (hex bytes).length = 2 * bytes.length := by
  unfold hex
  simp only [String.length]
  induction bytes with
  | nil => rfl
  | cons b bs ih =>
    simp only [List.flatMap_cons, List.length_append, ih, List.length_cons, List.length_nil]
    omega

theorem hexDigit_mem (n : Nat) (h : n < 16) : hexDigit n ∈ "0123456789abcdef".toList := by
  interval_cases n <;> decide

theorem hex_lowercase (bytes : List Nat) (hb : ∀ b ∈ bytes, b < 256) :
    ∀ c ∈ (hex bytes).toList, c ∈ "0123456789abcdef".toList := by
  intro c hc
  have hc2 : c ∈ bytes.flatMap (fun b => [hexDigit (b / 16), hexDigit (b % 16)]) := hc
  rw [List.mem_flatMap] at hc2
  obtain ⟨b, hb1, hb2⟩ := hc2
  have := hb b hb1
  simp only [List.mem_cons, List.mem_singleton, List.not_mem_nil, or_false] at hb2
  rcases hb2 with hb2 | hb2
  · rw [hb2]; exact hexDigit_mem _ (by omega)
  · rw [hb2]; exact hexDigit_mem _ (by omega)

theorem sha1_bytes (message : List Nat) :
    (sha1 message).length = 20 ∧ ∀ b ∈ sha1 message, b < 256 := by
  constructor
  · simp [sha1, wordBytes]
  · intro b hb
    simp only [sha1, wordBytes, List.mem_append, List.mem_cons, List.mem_singleton,
      List.not_mem_nil, or_false] at hb
    rcases hb with ((((h | h | h | h) | (h | h | h | h)) | (h | h | h | h)) | (h | h | h | h)) |
      (h | h | h | h) <;> (rw [h]; exact Nat.mod_lt _ (by decide))

set_option maxRecDepth 1000000 in
theorem sha1_hello : hex (sha1 (asciiBytes "hello")) = "aaf4c61ddcc5e8a2dabede0f3b482cd9aea9434d" :=
  rfl

set_option maxRecDepth 1000000 in
theorem sha1_abc : hex (sha1 (asciiBytes "abc")) = "a9993e364706816aba3e25717850c26c9cd0d89d" :=
  rfl

set_option maxRecDepth 1000000 in
theorem sha1_empty : hex (sha1 []) = "da39a3ee5e6b4b0d3255bfef95601890afd80709" :=
  rfl

/-- C17. When the read stream ends, `calculateSha1` resolves with the hex
encoding of the SHA-1 digest of the concatenation of the chunks, whatever the
split of the file into chunks; that string has 40 characters, all of them
lowercase hexadecimal digits; and for a file holding the bytes of `hello`,
however the stream splits them, it is
`aaf4c61ddcc5e8a2dabede0f3b482cd9aea9434d`. -/
theorem calculateSha1_is_hex_sha1_of_contents (chunks : List (List Nat)) :
    calculateSha1 chunks (.ok ()) = .ok (hex (sha1 chunks.flatten)) ∧
    (hex (sha1 chunks.flatten)).length = 40 ∧
    (∀ c ∈ (hex (sha1 chunks.flatten)).toList, c ∈ "0123456789abcdef".toList) ∧
    (chunks.flatten = asciiBytes "hello" →
      calculateSha1 chunks (.ok ()) = .ok "aaf4c61ddcc5e8a2dabede0f3b482cd9aea9434d") := by
  have h1 : calculateSha1 chunks (.ok ()) = .ok (hex (sha1 chunks.flatten)) := by
    simp only [calculateSha1]
    rw [foldl_update, digest_update]
  refine ⟨h1, ?_, ?_, ?_⟩
  · rw [hex_length, (sha1_bytes _).1]
  · exact hex_lowercase _ (sha1_bytes _).2
  · intro hc
    rw [h1, hc, sha1_hello]

/-! ## Examples -/

/-- The specification's `withRetry(op, 3, 1000)` on an operation that fails
twice and then succeeds. -/
theorem withRetry_third_attempt :
    withRetry (fun k => if k = 3 then (Except.ok 7 : Except JsError Nat)
        else .error { message := "ETIMEDOUT" }) 3 1000 =
      (some (.ok 7),
       [Tick.attempt, Tick.sleep 1000, Tick.attempt, Tick.sleep 2000, Tick.attempt]) := rfl

set_option maxRecDepth 1000000 in
/-- The stream splits `hello` into `he` and `llo`. -/
theorem calculateSha1_hello_in_two_chunks :
    calculateSha1 [asciiBytes "he", asciiBytes "llo"] (.ok ()) =
      .ok "aaf4c61ddcc5e8a2dabede0f3b482cd9aea9434d" :=
  rfl

/-- With concurrency 0 no worker is started and nothing is popped. -/
theorem downloadParallel_no_worker_pops_nothing :
    (poolAfter rtOk [JsFile.obj taskA] 0 none []).calls = [] ∧
    downloadParallel rtOk [JsFile.obj taskA] 0 none [] =
      some { completed := 0, total := 1, failed := [] } := ⟨rfl, rfl⟩

/-! ## `_getRequestModule`: claim -/

theorem startsWith_https_iff (url : String) :
    ("https://".toList).isPrefixOf url.toList = true ↔ ∃ rest : String, url = "https://" ++ rest := by
  rw [List.isPrefixOf_iff_prefix]
  constructor
  · rintro ⟨t, ht⟩
    refine ⟨String.mk t, ?_⟩
    apply String.ext
    rw [String.data_append]
    exact ht.symm
  · rintro ⟨rest, hrest⟩
    refine ⟨rest.toList, ?_⟩
    rw [hrest]
    exact (String.data_append _ _).symm

/-- C21. The function `_getRequestModule` selects the `https` client if and
only if the URL is `https://` followed by anything, character for character
(so case-sensitively); every other URL selects the `http` client, among them
`http://...`, `HTTPS://...` and the empty string. -/
theorem getRequestModule_https_iff_exact_prefix (url : String) :
    (_getRequestModule url = Client.https ↔ ∃ rest : String, url = "https://" ++ rest) ∧
    (_getRequestModule url = Client.http ↔ ¬ ∃ rest : String, url = "https://" ++ rest) ∧
    _getRequestModule "https://host/a.jar" = Client.https ∧
    _getRequestModule "http://host/a.jar" = Client.http ∧
    _getRequestModule "HTTPS://host/a.jar" = Client.http ∧
    _getRequestModule "" = Client.http := by
  have h := startsWith_https_iff url
  refine ⟨?_, ?_, by decide, by decide, by decide, by decide⟩
  · rw [← h]
    unfold _getRequestModule
    split <;> simp_all
  · rw [← h]
    unfold _getRequestModule
    split <;> simp_all

/-! ## Degenerate pools and throwing callbacks: claims -/

theorem run_of_allFinished (rt : Runtime) (cb : Option ProgressCallback) (sched : List Nat)
    (s : Pool) (h : s.allFinished = true) :
    sched.foldl (fun s j => settle rt cb j s) s = s := by
  induction sched with
  | nil => rfl
  | cons j js ih =>
    simp only [List.foldl_cons]
    rcases settle_cases rt cb j s with ⟨_, hs⟩ | ⟨hf, _⟩
    · rw [hs]; exact ih
    · rw [h] at hf; cases hf

/-- With `concurrency ≤ 0` the `for` loop does not run: the pool stays as the
declarations leave it. -/
theorem poolAfter_no_worker (rt : Runtime) (files : List JsFile) (concurrency : Int)
    (cb : Option ProgressCallback) (sched : List Nat) (hC : concurrency ≤ 0) :
    poolAfter rt files concurrency cb sched = Pool.init files := by
  have h0 : concurrency.toNat = 0 := by omega
  unfold poolAfter
  rw [h0]
  exact run_of_allFinished rt cb sched _ rfl

/-- On an empty queue every worker that is started finishes at once, and
nothing else changes. -/
theorem spawnAll_empty_queue (n : Nat) (s : Pool) (hq : s.queue = [])
    (hf : s.allFinished = true) :
    (spawnAll n s).allFinished = true ∧ (spawnAll n s).completed = s.completed ∧
    (spawnAll n s).total = s.total ∧ (spawnAll n s).failed = s.failed ∧
    (spawnAll n s).calls = s.calls ∧ (spawnAll n s).progress = s.progress := by
  induction n generalizing s with
  | zero => exact ⟨hf, rfl, rfl, rfl, rfl, rfl⟩
  | succ n ih =>
    have hs : spawn s = { s with workers := s.workers ++ [Worker.finished] } := by
      simp [spawn, workerNext, hq]
    have hf2 : (spawn s).allFinished = true := by
      rw [hs]
      simp only [Pool.allFinished, List.all_append, Bool.and_eq_true] at hf ⊢
      exact ⟨hf, by simp⟩
    have hq2 : (spawn s).queue = [] := by rw [hs]; exact hq
    obtain ⟨h1, h2, h3, h4, h5, h6⟩ := ih (spawn s) hq2 hf2
    simp only [spawnAll]
    refine ⟨h1, ?_, ?_, ?_, ?_, ?_⟩
    · rw [h2, hs]
    · rw [h3, hs]
    · rw [h4, hs]
    · rw [h5, hs]
    · rw [h6, hs]

/-- C23. For every `files` list, `downloadParallel` called with
`concurrency ≤ 0` starts no worker, calls no pipeline, invokes no callback,
and resolves at once with `{ completed: 0, total: files.length, failed: [] }`;
and for the empty list and any concurrency (every worker started finds the
queue empty) it calls no pipeline, invokes no callback and resolves at once
with `{ completed: 0, total: 0, failed: [] }`. -/
theorem downloadParallel_degenerate (rt : Runtime) (files : List JsFile) (concurrency : Int)
    (cb : Option ProgressCallback) (sched : List Nat) :
    (concurrency ≤ 0 →
      (poolAfter rt files concurrency cb sched).workers = [] ∧
      (poolAfter rt files concurrency cb sched).calls = [] ∧
      (poolAfter rt files concurrency cb sched).progress = [] ∧
      downloadParallel rt files concurrency cb sched =
        some { completed := 0, total := files.length, failed := [] }) ∧
    ((poolAfter rt [] concurrency cb sched).calls = [] ∧
     (poolAfter rt [] concurrency cb sched).progress = [] ∧
     downloadParallel rt [] concurrency cb sched =
       some { completed := 0, total := 0, failed := [] }) := by
  constructor
  · intro hC
    have h := poolAfter_no_worker rt files concurrency cb sched hC
    refine ⟨by rw [h]; rfl, by rw [h]; rfl, by rw [h]; rfl, ?_⟩
    unfold downloadParallel
    rw [h]
    rfl
  · obtain ⟨h1, h2, h3, h4, h5, h6⟩ :=
      spawnAll_empty_queue concurrency.toNat (Pool.init []) rfl rfl
    have hp : poolAfter rt [] concurrency cb sched =
        spawnAll concurrency.toNat (Pool.init []) := by
      unfold poolAfter
      exact run_of_allFinished rt cb sched _ h1
    refine ⟨by rw [hp, h5]; rfl, by rw [hp, h6]; rfl, ?_⟩
    unfold downloadParallel
    rw [hp]
    simp only [h1, if_true, h2, h3, h4]
    rfl

theorem downloadParallel_degenerate_witness :
    ((0 : Int) ≤ 0) ∧
    (poolAfter rt500 [JsFile.obj taskA, JsFile.obj taskB] 0 (some throwingCallback) [0, 1]).workers
      = [] ∧
    (poolAfter rt500 [JsFile.obj taskA, JsFile.obj taskB] 0 (some throwingCallback) [0, 1]).calls
      = [] ∧
    (poolAfter rt500 [JsFile.obj taskA, JsFile.obj taskB] 0 (some throwingCallback)
      [0, 1]).progress = [] ∧
    downloadParallel rt500 [JsFile.obj taskA, JsFile.obj taskB] 0 (some throwingCallback) [0, 1] =
      some { completed := 0, total := [JsFile.obj taskA, JsFile.obj taskB].length, failed := [] } :=
  ⟨by decide,
   (downloadParallel_degenerate rt500 [JsFile.obj taskA, JsFile.obj taskB] 0
      (some throwingCallback) [0, 1]).1 (by decide)⟩

/-- A callback can only have been invoked by a worker. -/
theorem progress_needs_worker (rt : Runtime) (files : List JsFile) (concurrency : Int)
    (cb : Option ProgressCallback) (sched : List Nat)
    (h : (poolAfter rt files concurrency cb sched).progress ≠ []) : 1 ≤ concurrency := by
  by_contra hc
  rw [poolAfter_no_worker rt files concurrency cb sched (by omega)] at h
  exact h rfl

/-- C22. A batch over the task objects `ts` resolves after `ts.length`
settlements whatever `onProgress` does.  Every `onProgress` call that threw was
made for a task whose pipeline had succeeded, after `completed` had been
incremented for it (the call reports a `completed` between 1 and the returned
one), and its task is in the returned `failed`.  When a call threw (or, more
generally, when at least one worker was started) the result has
`completed + failed.length = total + (number of onProgress calls that threw)`. -/
theorem downloadParallel_throwing_callback_double_count (rt : Runtime)
    (ts : List DownloadTask) (concurrency : Int) (cb : Option ProgressCallback)
    (sched : List Nat) (hlen : ts.length ≤ sched.length) :
    ∃ r, downloadParallel rt (ts.map JsFile.obj) concurrency cb sched = some r ∧
      (∀ e ∈ (poolAfter rt (ts.map JsFile.obj) concurrency cb sched).progress,
        threw cb e = true →
          resolved rt e.call = true ∧ e.file ∈ r.failed ∧
          1 ≤ e.completed ∧ e.completed ≤ r.completed) ∧
      ((1 ≤ concurrency ∨
        ∃ e ∈ (poolAfter rt (ts.map JsFile.obj) concurrency cb sched).progress,
          threw cb e = true) →
        r.completed + r.failed.length = r.total +
          ((poolAfter rt (ts.map JsFile.obj) concurrency cb sched).progress.filter
            (threw cb)).length) := by
  have hfin : (poolAfter rt (ts.map JsFile.obj) concurrency cb sched).allFinished = true :=
    poolAfter_finishes rt _ concurrency cb sched (by simpa using hlen)
  obtain ⟨rest, settled, h⟩ := inv_poolAfter rt ts concurrency cb sched
  refine ⟨{ completed := (poolAfter rt (ts.map JsFile.obj) concurrency cb sched).completed,
             total := (poolAfter rt (ts.map JsFile.obj) concurrency cb sched).total,
             failed := (poolAfter rt (ts.map JsFile.obj) concurrency cb sched).failed },
    by simp [downloadParallel, hfin], ?_, ?_⟩
  · intro e he hthrew
    have hcb : cb.isSome = true := by
      cases cb with
      | none => simp [threw] at hthrew
      | some f => rfl
    have hprog := h.accounts.progress_some hcb
    have hlenp : (poolAfter rt (ts.map JsFile.obj) concurrency cb sched).progress.length =
        (poolAfter rt (ts.map JsFile.obj) concurrency cb sched).completed := by
      have := congrArg List.length hprog
      rw [List.length_map] at this
      rw [this, h.accounts.completed_eq]
    refine ⟨?_, ?_, ?_⟩
    · have hm : e.call ∈ settled.filter (resolved rt) := by
        rw [← hprog]
        exact List.mem_map.2 ⟨e, he, rfl⟩
      exact (List.mem_filter.1 hm).2
    · refine h.accounts.failed_perm.symm.subset ?_
      exact List.mem_append_right _
        (List.mem_map.2 ⟨e, List.mem_filter.2 ⟨he, hthrew⟩, rfl⟩)
    · have hnum := congrArg (List.map Prod.fst) h.accounts.numbering
      simp only [List.map_map, Function.comp_def, List.map_id'] at hnum
      have hm : e.completed ∈ List.range' 1
          (poolAfter rt (ts.map JsFile.obj) concurrency cb sched).progress.length := by
        rw [← hnum]
        exact List.mem_map.2 ⟨e, he, rfl⟩
      rw [List.mem_range'_1, hlenp] at hm
      simp only
      omega
  · intro hor
    have hC : 1 ≤ concurrency := by
      rcases hor with hC | ⟨e, he, _⟩
      · exact hC
      · exact progress_needs_worker rt _ concurrency cb sched (List.ne_nil_of_mem he)
    have hacc := batch_accounting rt ts concurrency cb sched hC hfin
    simp only
    rw [hacc, h.total_eq]

theorem downloadParallel_throwing_callback_double_count_witness :
    [taskA, taskB].length ≤ [0, 0].length ∧
    (∃ e ∈ (poolAfter rtOk ([taskA, taskB].map JsFile.obj) 2 (some throwingCallback)
        [0, 0]).progress, threw (some throwingCallback) e = true) ∧
    ∃ r, downloadParallel rtOk ([taskA, taskB].map JsFile.obj) 2 (some throwingCallback) [0, 0]
        = some r ∧
      (∀ e ∈ (poolAfter rtOk ([taskA, taskB].map JsFile.obj) 2 (some throwingCallback)
          [0, 0]).progress,
        threw (some throwingCallback) e = true →
          resolved rtOk e.call = true ∧ e.file ∈ r.failed ∧
          1 ≤ e.completed ∧ e.completed ≤ r.completed) ∧
      ((1 ≤ (2 : Int) ∨
        ∃ e ∈ (poolAfter rtOk ([taskA, taskB].map JsFile.obj) 2 (some throwingCallback)
            [0, 0]).progress, threw (some throwingCallback) e = true) →
        r.completed + r.failed.length = r.total +
          ((poolAfter rtOk ([taskA, taskB].map JsFile.obj) 2 (some throwingCallback)
            [0, 0]).progress.filter (threw (some throwingCallback))).length) :=
  ⟨by decide,
   ⟨{ completed := 1, total := 2, file := taskA, pos := 0 }, by decide, rfl⟩,
   downloadParallel_throwing_callback_double_count rtOk [taskA, taskB] 2
     (some throwingCallback) [0, 0] (by decide)⟩

/-- The batch of the witness above: both tasks are completed and both are in
`failed`, 2 + 2 = 2 + 2 throws. -/
theorem downloadParallel_two_throws :
    downloadParallel rtOk ([taskA, taskB].map JsFile.obj) 2 (some throwingCallback) [0, 0] =
      some { completed := 2, total := 2, failed := [taskA, taskB] } := rfl

/-! ## Redirects to locations the request module does not accept: claim C14 -/

/-- When `client.get` accepts the URL and every location of a chain of
followed redirects, the calls end as the servers react. -/
theorem received_accepted (check : Client → String → Option JsError) (chain rest : List Hop)
    (last : Hop) (url : String) (r : Response)
    (hchain : ∀ h ∈ chain, ∃ r, h.reply = .response r ∧ followsRedirect r = true)
    (hreply : last.reply = .response r) (hlast : followsRedirect r = false)
    (haccept : ∀ u ∈ url :: chain.map Hop.target, check (_getRequestModule u) u = none) :
    received check (chain ++ last :: rest) url = chain ++ last :: rest := by
  induction chain generalizing url with
  | nil =>
    have h0 := haccept url (List.mem_cons_self _ _)
    simp [received, h0, hreply, hlast]
  | cons h chain ih =>
    obtain ⟨r1, hr, hred⟩ := hchain h (List.mem_cons_self _ _)
    have h0 := haccept url (List.mem_cons_self _ _)
    have ht : h.target = r1.location.getD "" := by simp [Hop.target, hr]
    have hih := ih h.target (fun x hx => hchain x (List.mem_cons_of_mem _ hx))
      (fun u hu => haccept u (by
        simp only [List.map_cons, List.mem_cons] at hu ⊢
        exact Or.inr hu))
    rw [List.cons_append, received]
    simp only [h0, hr, hred, if_true]
    rw [← ht, hih]

/-- C14 (counterexample). The server answers the request for
`http://host/a.jar` with 302 and the `Location` header `/cdn/a.jar`, and is
ready to answer 200 with body `DATA`: a chain of one redirect carrying a
`Location` header, ending in a 200 response.  `downloadFile` passes the
location as it is to `client.get`, which throws `Invalid URL` for a string
with no scheme: the promise rejects and no file is written, instead of
resolving with a file holding `DATA`.  The same happens, with the error of the
unsupported protocol, for the location `HTTPS://cdn/a.jar`, for which the
`http` module is selected. -/
theorem downloadFile_rejects_relative_location :
    (∀ h ∈ [hopRedirect 302 "/cdn/a.jar"], h.ensureDir = .ok () ∧
      ∃ r, h.reply = .response r ∧ r.statusCode ∈ [301, 302, 307, 308] ∧
        truthy r.location = true) ∧
    (hopStatus 200 "DATA").reply =
      .response { statusCode := 200, location := none, body := "DATA" } ∧
    (downloadFile emptyDisk
        (received requestError [hopRedirect 302 "/cdn/a.jar", hopStatus 200 "DATA"]
          "http://host/a.jar")
        "http://host/a.jar" "/game/a.jar").map Download.result
      = some (.error { message := "Invalid URL" }) ∧
    (downloadFile emptyDisk
        (received requestError [hopRedirect 302 "/cdn/a.jar", hopStatus 200 "DATA"]
          "http://host/a.jar")
        "http://host/a.jar" "/game/a.jar").map (fun d => d.disk "/game/a.jar")
      = some none ∧
    (downloadFile emptyDisk
        (received requestError [hopRedirect 302 "HTTPS://cdn/a.jar", hopStatus 200 "DATA"]
          "http://host/a.jar")
        "http://host/a.jar" "/game/a.jar").map Download.result
      = some (.error { message := "Protocol \x22https:\x22 not supported. Expected \x22http:\x22" }) ∧
    (downloadFile emptyDisk
        (received requestError [hopRedirect 302 "HTTPS://cdn/a.jar", hopStatus 200 "DATA"]
          "http://host/a.jar")
        "http://host/a.jar" "/game/a.jar").map (fun d => d.disk "/game/a.jar")
      = some none := by
  refine ⟨?_, rfl, rfl, rfl, rfl, rfl⟩
  intro h hh
  have hh2 : h = hopRedirect 302 "/cdn/a.jar" := by simpa using hh
  subst hh2
  exact ⟨rfl, _, rfl, by decide, rfl⟩

/-- C14 (amended). Whatever `client.get` throws for which URL (`check`): for
every chain of `n` hops each answered with a status in {301, 302, 307, 308} and
a (truthy) `Location` header, followed by a response 200 with body `body`, if
`client.get` accepts `url` and every location of the chain for the module
selected for it (and the directory can be made, the write stream finishes),
then `downloadFile(url, filePath)` issues `n + 1` GETs, to `url` and then to
each location in turn, resolves, and leaves the disk as it was but for
`filePath`, which holds exactly `body`: no bound on `n`. -/
theorem downloadFile_follows_accepted_redirects (check : Client → String → Option JsError)
    (disk : Disk) (chain more : List Hop) (last : Hop)
    (url filePath : String) (loc : Option String) (body : String)
    (hchain : ∀ h ∈ chain, h.ensureDir = .ok () ∧
      ∃ r, h.reply = .response r ∧ r.statusCode ∈ [301, 302, 307, 308] ∧
        truthy r.location = true)
    (haccept : ∀ u ∈ url :: chain.map Hop.target, check (_getRequestModule u) u = none)
    (hdir : last.ensureDir = .ok ())
    (hreply : last.reply = .response { statusCode := 200, location := loc, body := body })
    (hwrite : last.write = .ok ()) :
    ∃ d, downloadFile disk (received check (chain ++ last :: more) url) url filePath = some d ∧
      d.result = .ok () ∧
      d.disk = Function.update disk filePath (some body) ∧
      d.disk filePath = some body ∧
      gets d.trace = url :: chain.map Hop.target ∧
      (gets d.trace).length = chain.length + 1 := by
  have hrec := received_accepted check chain more last url
    { statusCode := 200, location := loc, body := body }
    (fun h hh => by
      obtain ⟨_, r, hr, hs, hl⟩ := hchain h hh
      exact ⟨r, hr, (followsRedirect_iff r).2 ⟨hs, hl⟩⟩)
    hreply (by simp [followsRedirect]) haccept
  rw [hrec]
  exact downloadFile_follows_redirect_chain disk chain more last url filePath loc body
    hchain hdir hreply hwrite

theorem downloadFile_follows_accepted_redirects_witness :
    (∀ h ∈ [hopRedirect 302 "https://cdn/a.jar"], h.ensureDir = .ok () ∧
      ∃ r, h.reply = .response r ∧ r.statusCode ∈ [301, 302, 307, 308] ∧
        truthy r.location = true) ∧
    (∀ u ∈ "http://host/a.jar" :: [hopRedirect 302 "https://cdn/a.jar"].map Hop.target,
      requestError (_getRequestModule u) u = none) ∧
    ∃ d, downloadFile emptyDisk
        (received requestError ([hopRedirect 302 "https://cdn/a.jar"] ++ hopStatus 200 "DATA" :: [])
          "http://host/a.jar")
        "http://host/a.jar" "/game/a.jar" = some d ∧
      d.result = .ok () ∧
      d.disk = Function.update emptyDisk "/game/a.jar" (some "DATA") ∧
      d.disk "/game/a.jar" = some "DATA" ∧
      gets d.trace = "http://host/a.jar" :: [hopRedirect 302 "https://cdn/a.jar"].map Hop.target ∧
      (gets d.trace).length = [hopRedirect 302 "https://cdn/a.jar"].length + 1 :=
  ⟨fun h hh => by
      have hh2 : h = hopRedirect 302 "https://cdn/a.jar" := by simpa using hh
      subst hh2
      exact ⟨rfl, _, rfl, by decide, rfl⟩,
   fun u hu => by
      have hu2 : u = "http://host/a.jar" ∨ u = "https://cdn/a.jar" := by
        simpa [Hop.target, hopRedirect] using hu
      rcases hu2 with hu2 | hu2 <;> (subst hu2; rfl),
   downloadFile_follows_accepted_redirects requestError emptyDisk
     [hopRedirect 302 "https://cdn/a.jar"] [] (hopStatus 200 "DATA")
     "http://host/a.jar" "/game/a.jar" none "DATA"
     (fun h hh => by
      have hh2 : h = hopRedirect 302 "https://cdn/a.jar" := by simpa using hh
      subst hh2
      exact ⟨rfl, _, rfl, by decide, rfl⟩)
     (fun u hu => by
      have hu2 : u = "http://host/a.jar" ∨ u = "https://cdn/a.jar" := by
        simpa [Hop.target, hopRedirect] using hu
      rcases hu2 with hu2 | hu2 <;> (subst hu2; rfl))
     rfl rfl rfl⟩

end DownloadUtil
